import Mathlib

/-!
Verification development for the foremost-parser ingestion/deduplication core.

Shallow embedding of the Python sources under `src/app/`:
  * `parser/indv_files.py` — metadata extraction (`extract_exiftool_data`),
    record building (`create_database_objects`), streaming hashing
    (`hash_and_store`), and the per-subdirectory driver (`parse_files`).
  * `parser/duplicates.py` — `detect_duplicates`.
  * `crud/duplicate.py` — group/link/member CRUD with the unique-constraint
    behaviour of the models in `models/duplicate.py` and `models/file.py`.
  * `main.py` — the post-audit control flow of `main`.

Python dictionaries are modelled as insertion-ordered association lists,
database tables as lists of rows, and unique-constraint violations as
rolled-back no-op inserts (SQLAlchemyError path in the CRUD functions).
-/

namespace ForemostParser

/-! ### Python dictionary model (string-keyed, insertion ordered) -/

/-- A dynamically typed metadata value (string or integer), as stored in the
exiftool metadata dictionaries. -/
inductive MVal where
  | str : String → MVal
  | nat : Nat → MVal
deriving DecidableEq

/-- A Python dict with string keys: an insertion-ordered association list. -/
abbrev PyDict (α : Type) := List (String × α)

/-- `d.get(k)` / `d[k]`: value of the first (unique) binding of `k`. -/
def dictGet {α : Type} (d : PyDict α) (k : String) : Option α :=
  (d.find? (fun p => p.1 == k)).map Prod.snd

/-- `d[k] = v`: replace the value in place if the key exists, else append. -/
def dictSet {α : Type} (d : PyDict α) (k : String) (v : α) : PyDict α :=
  if d.any (fun p => p.1 == k) then
    d.map (fun p => if p.1 == k then (k, v) else p)
  else d ++ [(k, v)]

/-- `d.pop(k, None)`: the dict after removing the binding of `k` (if any). -/
def dictPop {α : Type} (d : PyDict α) (k : String) : PyDict α :=
  d.filter (fun p => ¬ p.1 == k)

/-- Python `set.add` on a set modelled as a duplicate-free list. -/
def setAdd (s : List String) (x : String) : List String :=
  if s.contains x then s else s ++ [x]

/-! ### `indv_files.extract_exiftool_data` -/

/-- The slice of a `pathlib.Path` used by `extract_exiftool_data`:
`Path(filepath).name` and `Path(filepath).suffix` (with leading dot). -/
structure FPath where
  name : String
  suffix : String
deriving DecidableEq

/-- One exiftool metadata record: a Python dict of tag/value pairs. -/
abbrev Meta := PyDict MVal

/-- The external world of `extract_exiftool_data`: the exiftool probe
(`ex.get_metadata` on a batch and on a single file, `none` modelling
`ExifToolExecuteError`) and the local fallback facilities
(`magic.Magic(mime=False/True).from_file` and `Path.stat().st_size`). -/
structure ProbeEnv where
  batchCall : List FPath → Option (List Meta)
  singleCall : FPath → Option (List Meta)
  sniffType : FPath → String
  sniffMime : FPath → String
  statSize : FPath → Nat

/-- `batch_size = 500` in `indv_files.py`. -/
def batch_size : Nat := 500

/-- Python `str.lstrip('.')`: drop all leading dots. -/
def lstripDot (s : String) : String :=
  String.mk (s.toList.dropWhile (fun c => c == '.'))

/-- Python `str.upper` (character-wise, as used on ASCII extensions). -/
def upperString (s : String) : String :=
  String.mk (s.toList.map Char.toUpper)

/-- Python `str.lower` (character-wise, as used on ASCII extensions). -/
def lowerString (s : String) : String :=
  String.mk (s.toList.map Char.toLower)

/-- The fallback metadata dict built when exiftool fails on a single file
(`indv_files.py` lines 133-140). -/
def fallbackDict (env : ProbeEnv) (p : FPath) : Meta :=
  [("File:FileName", MVal.str p.name),
   ("File:FileTypeExtension", MVal.str (upperString (lstripDot p.suffix))),
   ("File:FileType", MVal.str (env.sniffType p)),
   ("File:MIMEType", MVal.str (env.sniffMime p)),
   ("File:FileSize", MVal.nat (env.statSize p))]

/-- `file['File:FileName']` on a probe-returned record (exiftool always
supplies this tag; the default is never reached for real probe output). -/
def metaName (m : Meta) : String :=
  match dictGet m "File:FileName" with
  | some (MVal.str s) => s
  | _ => ""

/-- `range(0, len(file_paths), batch_size)` slicing: the batches
`files[i:i+batch_size]`. -/
def chunkBatches : List FPath → List (List FPath)
  | [] => []
  | a :: rest => ((a :: rest).take batch_size) :: chunkBatches ((a :: rest).drop batch_size)
termination_by l => l.length
decreasing_by
  simp only [List.length_drop, List.length_cons, batch_size]
  omega

/-- Processing of one batch (the body of the outer loop of
`extract_exiftool_data`): try the batch probe; on failure retry each file
individually; on individual failure fall back to local inspection and record
the file name in `is_python`. -/
def processBatch (env : ProbeEnv) (acc : PyDict Meta × List String)
    (batch : List FPath) : PyDict Meta × List String :=
  match env.batchCall batch with
  | some metas =>
      (metas.foldl (fun d file => dictSet d (metaName file) file) acc.1, acc.2)
  | none =>
      batch.foldl (fun a p =>
        match env.singleCall p with
        | some metas =>
            (metas.foldl (fun d file => dictSet d (metaName file) file) a.1, a.2)
        | none =>
            (dictSet a.1 p.name (fallbackDict env p), setAdd a.2 p.name)) acc

/-- `extract_exiftool_data(files, file_paths, is_python)`: returns the
`subdir_files` dict and the updated `is_python` set. -/
def extract_exiftool_data (env : ProbeEnv) (files : List FPath)
    (is_python : List String) : PyDict Meta × List String :=
  (chunkBatches files).foldl (processBatch env) ([], is_python)

/-- Spec-side: the individual probe call for `p` succeeds with a single
record correctly keyed by the file's name (exiftool's normal behaviour). -/
def singleEntryOk (env : ProbeEnv) (p : FPath) : Bool :=
  match env.singleCall p with
  | some [m] => decide (dictGet m "File:FileName" = some (MVal.str p.name))
  | _ => false

/-- Spec-side: the metadata entry the individual-retry path produces for a
file — the probe's record when the individual call succeeds, the local
fallback dict when it fails. -/
def expectedEntry (env : ProbeEnv) (p : FPath) : Meta :=
  match env.singleCall p with
  | some (m :: _) => m
  | _ => fallbackDict env p

/-- A concrete probe environment for witnesses: the batch call always
fails, the individual call fails exactly on the file named `"bad"` and
returns a single correctly-keyed record for every other file. -/
def witnessEnv : ProbeEnv :=
  { batchCall := fun _ => none
    singleCall := fun p =>
      if p.name == "bad" then none
      else some [[("File:FileName", MVal.str p.name)]]
    sniffType := fun _ => "data"
    sniffMime := fun _ => "application/octet-stream"
    statSize := fun _ => 0 }

/-- A concrete batch for witnesses: three files, the middle one breaking
the probe. -/
def witnessFiles : List FPath :=
  [⟨"a", ".jpg"⟩, ⟨"bad", ".bin"⟩, ⟨"b", ".png"⟩]

/-! ### `indv_files.create_database_objects` -/

/-- One audit side-table entry: the per-file dict parsed from `audit.txt`
(keys such as `"File Offset"` and `"Comment"`). -/
abbrev AuditEntry := PyDict MVal

/-- The attributes of a `File` ORM object assigned by
`create_database_objects` (`models/file.py`).  `file_extension_mismatch`
is an ORM column with default `False`; the builder never assigns it, so the
in-memory attribute stays unset (`none`). -/
structure FileObj where
  image_id : Nat
  file_name : String
  file_type : Option MVal
  file_extension : Option MVal
  file_mime : Option MVal
  file_size : Option MVal
  file_offset : Option MVal
  foremost_comment : Option MVal
  is_exiftool : Bool
  file_extension_mismatch : Option Bool
  more_metadata : Meta
deriving DecidableEq

/-- The `exclude` list of `create_database_objects`. -/
def exclude_keys : List String :=
  ["File:FileTypeExtension", "SourceFile", "File:FileType", "File:MIMEType",
   "File:FileSize", "File:FileModifyDate", "File:FileAccessDate",
   "File:FileCreateDate", "File:FileInodeChangeDate", "File:FileName",
   "ExifTool:ExifToolVersion", "File:Directory"]

/-- Dropping every excluded key from a metadata dict (the `pop` loop). -/
def stripExcluded (m : Meta) : Meta :=
  exclude_keys.foldl dictPop m

/-- The body of the loop of `create_database_objects` for one
`(key, value)` item of `subdir_files`.  The audit side-table is threaded
through unchanged because the source only calls `audit_table.get(...)`
(it never deletes the entry). -/
def buildFileObj (image_id : Nat) (audit_table : PyDict AuditEntry)
    (is_python : List String) (kv : String × Meta) : FileObj :=
  let audit_info := (dictGet audit_table kv.1).getD []
  { image_id := image_id
    file_name := kv.1
    file_type := dictGet kv.2 "File:FileType"
    file_extension := dictGet kv.2 "File:FileTypeExtension"
    file_mime := dictGet kv.2 "File:MIMEType"
    file_size := dictGet kv.2 "File:FileSize"
    file_offset := dictGet audit_info "File Offset"
    foremost_comment := dictGet audit_info "Comment"
    is_exiftool := ¬ is_python.contains kv.1
    file_extension_mismatch := none
    more_metadata := stripExcluded kv.2 }

/-- `create_database_objects(subdir_files, image_id, audit_table, is_python)`.
Returns the built `File` objects together with the audit side-table as it
stands after the call (the dict is passed by reference in Python; the
function only reads it, so it is returned as-is by each iteration). -/
def create_database_objects (subdir_files : PyDict Meta) (image_id : Nat)
    (audit_table : PyDict AuditEntry) (is_python : List String) :
    List FileObj × PyDict AuditEntry :=
  subdir_files.foldl
    (fun acc kv => (acc.1 ++ [buildFileObj image_id acc.2 is_python kv], acc.2))
    ([], audit_table)

/-! ### `indv_files.hash_and_store` — the streaming SHA-256 loop -/

/-- `buffer = 4096` in `hash_and_store`. -/
def hash_buffer : Nat := 4096

/-- The sequence of chunks produced by `binary.read(buffer)` in the
`while True` loop: each read returns the next at most `buf` bytes and the
loop stops at the first empty read (for `buf = 0` every read returns `b''`,
so the loop stops immediately). -/
def streamChunks (buf : Nat) : List Nat → List (List Nat)
  | [] => []
  | a :: rest =>
      if hbuf : buf = 0 then []
      else
        have : 0 < buf := Nat.pos_of_ne_zero hbuf
        ((a :: rest).take buf) :: streamChunks buf ((a :: rest).drop buf)
termination_by l => l.length
decreasing_by
  simp only [List.length_drop, List.length_cons]
  omega

/-- The full byte sequence fed to `sha256.update` across the loop: the
digest computed by `hash_and_store` is SHA-256 of exactly this sequence. -/
def hashStreamInput (buf : Nat) (content : List Nat) : List Nat :=
  (streamChunks buf content).foldl (fun acc data => acc ++ data) []

/-! ### `main.py` — control flow after a successful audit parse -/

/-- A Python runtime value, as needed to give tuple-unpacking its actual
semantics. -/
inductive PyVal where
  | vBool : Bool → PyVal
  | vInt : Int → PyVal
  | vStr : String → PyVal
  | vTuple : List PyVal → PyVal
  | vNone : PyVal

/-- Python semantics of `a, b = v`: tuples (and 2-character strings, the
other iterable shape representable here) of length 2 unpack; every other
value raises (`TypeError` for non-iterables, `ValueError` for wrong arity). -/
def pyUnpack2 : PyVal → Except String (PyVal × PyVal)
  | PyVal.vTuple [a, b] => Except.ok (a, b)
  | PyVal.vTuple _ => Except.error "ValueError: unpack"
  | PyVal.vStr s =>
      match s.toList with
      | [c1, c2] => Except.ok (PyVal.vStr c1.toString, PyVal.vStr c2.toString)
      | _ => Except.error "TypeError: cannot unpack non-iterable bool object"
  | _ => Except.error "TypeError: cannot unpack non-iterable bool object"

/-- `parse_files` (`indv_files.py`) is annotated `-> bool` and every return
statement returns `True` or `False`: its result, as a Python value. -/
def parse_files_result (ok : Bool) : PyVal := PyVal.vBool ok

/-- Python truthiness, for `if parsed:`. -/
def pyTruthy : PyVal → Bool
  | PyVal.vBool b => b
  | PyVal.vInt n => n ≠ 0
  | PyVal.vStr s => s ≠ ""
  | PyVal.vTuple l => ¬ l.isEmpty
  | PyVal.vNone => false

/-- Observable outcome of the `main` region following
`parse_audit` (`main.py` lines 136-156). -/
inductive MainOutcome where
  /-- `detect_duplicates` and `generate_report_data` ran. -/
  | reportGenerated
  /-- the `else` branch: `cleanup(image_id, image_name, OUTPUT_PATH)` then
  `abort(...)`. -/
  | cleanupAbort
  /-- the enclosing `except Exception` handler:
  `abort(f"Something went wrong while parsing files: {e}")`, without cleanup. -/
  | abortGeneric : String → MainOutcome
  /-- `sys.exit(1)` when there is no parseable audit file. -/
  | exitNoAudit
deriving DecidableEq

/-- `main.py` lines 136-156: after `parse_audit` returned
`(image_id, audit_table, image_name)`, the statement
`parsed, audit_table = parse_files(...)` runs under
`if image_id > 0 and audit_table is not None`, inside
`try ... except Exception`. -/
def main_after_audit (image_id : Int) (audit_table : Option (PyDict AuditEntry))
    (parse_ok : Bool) : MainOutcome :=
  if 0 < image_id ∧ audit_table ≠ none then
    match pyUnpack2 (parse_files_result parse_ok) with
    | Except.error e => MainOutcome.abortGeneric e
    | Except.ok (parsed, _audit2) =>
        if pyTruthy parsed then MainOutcome.reportGenerated
        else MainOutcome.cleanupAbort
  else MainOutcome.exitNoAudit

/-! ### Data model of the duplicate bookkeeping (`models/*.py`)

A `DuplicateGroup` row is identified by its `file_hash`, which carries a
uniqueness constraint (`models/duplicate.py` line 59), so the groups table is
modelled as the list of hashes having a group.  The association table
`duplicate_group_image_association` is the list of `(file_hash, image_id)`
pairs (a composite primary key), and `table_duplicate_member` is the list of
`(group file_hash, file_id)` pairs, where `file_id` is both part of the
primary key and globally unique (`models/duplicate.py` line 92). -/

/-- A row of `table_file` restricted to the columns `detect_duplicates`
reads: `id`, `file_hash` (nullable) and `image_id`. -/
structure FileRow where
  id : Nat
  file_hash : Option String
  image_id : Nat
deriving DecidableEq

/-- A row of `table_file_hash` (`models/file.py`, class `FileHash`). -/
structure FileHashEntry where
  file_id : Nat
  file_hash : String
  image_id : Nat
deriving DecidableEq

/-- The durable state touched by duplicate detection. -/
structure DBState where
  files : List FileRow
  fileHashes : List FileHashEntry
  images : List Nat
  groups : List String
  links : List (String × Nat)
  members : List (String × Nat)
deriving DecidableEq

/-! ### CRUD layer (`crud/file.py`, `crud/duplicate.py`) -/

/-- `read_file_hashes_for_image(image_id, session)`. -/
def read_file_hashes_for_image (image_id : Nat) (s : DBState) : List FileHashEntry :=
  s.fileHashes.filter (fun e => e.image_id == image_id)

/-- `read_files_with_hash(session)`: `(id, hash)` of every file whose hash
is not `NULL`. -/
def read_files_with_hash (s : DBState) : List (Nat × String) :=
  s.files.filterMap (fun f => f.file_hash.map (fun h => (f.id, h)))

/-- `check_duplicate_group_for_image(session, image_id, file_hash)`:
whether a group with this hash exists, and whether it is linked to the
image via the association table. -/
def check_duplicate_group_for_image (s : DBState) (image_id : Nat)
    (file_hash : String) : Bool × Bool :=
  if s.groups.contains file_hash then
    if s.links.contains (file_hash, image_id) then (true, true)
    else (true, false)
  else (false, false)

/-- `insert_duplicate_group(DuplicateGroup(file_hash=h), session)`: the
unique constraint on `file_hash` rejects a second group for the same hash
(SQLAlchemyError → rollback → return -1, state unchanged). -/
def insert_duplicate_group (file_hash : String) (s : DBState) : Int × DBState :=
  if s.groups.contains file_hash then (-1, s)
  else (1, { s with groups := s.groups ++ [file_hash] })

/-- `link_duplicate_group_to_image(file_hash, image_id, session)`:
appends the image to `duplicate_group.images` only when the group exists,
the image row exists, and the pair is not already present. -/
def link_duplicate_group_to_image (file_hash : String) (image_id : Nat)
    (s : DBState) : Int × DBState :=
  if 0 < image_id ∧ file_hash ≠ "" then
    if ¬ s.groups.contains file_hash then (0, s)
    else if s.images.contains image_id ∧ ¬ s.links.contains (file_hash, image_id) then
      (1, { s with links := s.links ++ [(file_hash, image_id)] })
    else (1, s)
  else (0, s)

/-- `insert_duplicate_member(file_hash, image_id, file_id, session)`:
looks up the group for `(file_hash, image_id)` via the association table
(`read_duplicate_group_for_image_and_hash`); the unique constraint on
`DuplicateMember.file_id` rejects a second membership for the same file
(SQLAlchemyError → rollback → return -1, state unchanged). -/
def insert_duplicate_member (file_hash : String) (image_id : Nat)
    (file_id : Nat) (s : DBState) : Int × DBState :=
  if file_hash ≠ "" ∧ 0 < image_id then
    if s.groups.contains file_hash ∧ s.links.contains (file_hash, image_id) then
      if s.members.any (fun m => m.2 == file_id) then (-1, s)
      else (1, { s with members := s.members ++ [(file_hash, file_id)] })
    else (0, s)
  else (0, s)

/-! ### `duplicates.detect_duplicates` -/

/-- `hash_groups.setdefault(file_hash, []).append(file_id)` on a dict
modelled as an insertion-ordered association list. -/
def setdefaultAppend : List (String × List Nat) → String → Nat → List (String × List Nat)
  | [], h, fid => [(h, [fid])]
  | (k, v) :: rest, h, fid =>
      if k = h then (k, v ++ [fid]) :: rest
      else (k, v) :: setdefaultAppend rest h fid

/-- The `hash_groups` dict built by the grouping loop of
`detect_duplicates` from the image's `FileHash` entries. -/
def hash_groups_of (entries : List FileHashEntry) : List (String × List Nat) :=
  entries.foldl (fun gs e => setdefaultAppend gs e.file_hash e.file_id) []

/-- First `if` statement of the reconciliation body of `detect_duplicates`
(`if not exists: insert_duplicate_group(...); link_duplicate_group_to_image(...)`),
with `exists` computed on the incoming state. -/
def reconcile_group_step (image_id : Nat) (st : DBState) (hg : String × List Nat) : DBState :=
  if (check_duplicate_group_for_image st image_id hg.1).1 = false then
    (link_duplicate_group_to_image hg.1 image_id (insert_duplicate_group hg.1 st).2).2
  else st

/-- Second `if` statement
(`if exists and not linked_to_image: link_duplicate_group_to_image(...)`):
the booleans were computed on the incoming state, before the first `if` ran. -/
def reconcile_link_step (image_id : Nat) (st : DBState) (hg : String × List Nat) : DBState :=
  if (check_duplicate_group_for_image st image_id hg.1).1 = true ∧
      (check_duplicate_group_for_image st image_id hg.1).2 = false then
    (link_duplicate_group_to_image hg.1 image_id (reconcile_group_step image_id st hg)).2
  else reconcile_group_step image_id st hg

/-- The body of `for file_hash, file_ids in hash_groups.items()` in
`detect_duplicates`: reconcile one hash (group/link bookkeeping followed by
the `for file_id in file_ids: insert_duplicate_member(...)` loop). -/
def reconcile_hash (image_id : Nat) (st : DBState) (hg : String × List Nat) : DBState :=
  if 2 ≤ hg.2.length then
    hg.2.foldl (fun st3 fid => (insert_duplicate_member hg.1 image_id fid st3).2)
      (reconcile_link_step image_id st hg)
  else st

/-- `detect_duplicates(session, image_id, cross_image)`
(`parser/duplicates.py`).  The cross-image branch of the source is a
commented-out `TODO`, so with `cross_image = True` nothing happens. -/
def detect_duplicates (s : DBState) (image_id : Nat) (cross_image : Bool) : DBState :=
  let image_hashes := read_file_hashes_for_image image_id s
  let all_hashes := read_files_with_hash s
  if image_hashes.isEmpty ∨ all_hashes.isEmpty then s
  else if ¬ cross_image then
    (hash_groups_of image_hashes).foldl (reconcile_hash image_id) s
  else s

/-- Well-formedness of the durable state: the uniqueness constraints of the
schema (unique group hash, association-table primary key, unique member
`file_id`) together with the facts that `FileHash` rows are created from
`File` rows with a non-empty hash (`crud/file.py`, `insert_files`). -/
def WF (s : DBState) : Prop :=
  s.groups.Nodup ∧ s.links.Nodup ∧ (s.members.map Prod.snd).Nodup ∧
  (∀ e ∈ s.fileHashes, e.file_hash ≠ "") ∧
  (∀ e ∈ s.fileHashes, ∃ f ∈ s.files,
    f.id = e.file_id ∧ f.file_hash = some e.file_hash ∧ f.image_id = e.image_id)

instance (s : DBState) : Decidable (WF s) := by
  unfold WF
  infer_instance

/-! ### Spec-side definitions for the extension-mismatch claim

`create_database_objects` is the component the spec calls the
FileRecordBuilder; the spec prescribes an alias-normalized comparison of the
filename suffix against the probe extension.  The following definitions are
modelled from the spec's words (not from the source, which contains no such
computation) so that the claimed behaviour can be stated and compared. -/

/-- Modelled from the spec: the alias-normalization table
("jpg/jpeg, tif/tiff, htm/html"). -/
def specAliasNormalize (e : String) : String :=
  if e = "jpeg" then "jpg"
  else if e = "tiff" then "tif"
  else if e = "html" then "htm"
  else e

/-- The filename's suffix: the part after the last dot, empty if none. -/
def specSuffixOf (name : String) : String :=
  let rev := name.toList.reverse
  if rev.contains '.' then
    String.mk ((rev.takeWhile (fun c => ¬ c == '.')).reverse)
  else ""

/-- Modelled from the spec: the extension-mismatch flag the spec says the
builder computes — true exactly when the alias-normalized filename suffix
and probe extension differ. -/
def specMismatch (file_name probe_ext : String) : Bool :=
  specAliasNormalize (lowerString (specSuffixOf file_name)) ≠
    specAliasNormalize (lowerString probe_ext)

/-! ## Helper lemmas -/

lemma foldl_append_eq_flatten (l : List (List Nat)) :
    ∀ acc : List Nat, l.foldl (fun a d => a ++ d) acc = acc ++ l.flatten := by
  induction l with
  | nil => intro acc; simp
  | cons a rest ih => intro acc; simp [ih]

lemma streamChunks_flatten (buf : Nat) (hbuf : 0 < buf) (c : List Nat) :
    (streamChunks buf c).flatten = c := by
  have key : ∀ n (c : List Nat), c.length ≤ n → (streamChunks buf c).flatten = c := by
    intro n
    induction n with
    | zero =>
        intro c hc
        have hc0 : c = [] := by
          cases c with
          | nil => rfl
          | cons a rest => simp at hc
        subst hc0
        simp [streamChunks]
    | succ n ih =>
        intro c hc
        cases c with
        | nil => simp [streamChunks]
        | cons a rest =>
            rw [streamChunks]
            rw [dif_neg (Nat.pos_iff_ne_zero.mp hbuf)]
            simp only [List.flatten_cons]
            rw [ih ((a :: rest).drop buf)]
            · exact List.take_append_drop buf (a :: rest)
            · simp only [List.length_drop, List.length_cons]
              simp only [List.length_cons] at hc
              omega
  exact key c.length c le_rfl

lemma hashStreamInput_eq_content (buf : Nat) (hbuf : 0 < buf) (c : List Nat) :
    hashStreamInput buf c = c := by
  unfold hashStreamInput
  rw [foldl_append_eq_flatten]
  simp [streamChunks_flatten buf hbuf c]

lemma create_objects_foldl_snd (l : PyDict Meta) (image_id : Nat)
    (is_python : List String) :
    ∀ acc : List FileObj × PyDict AuditEntry,
      (l.foldl (fun acc kv =>
        (acc.1 ++ [buildFileObj image_id acc.2 is_python kv], acc.2)) acc).2 = acc.2 := by
  induction l with
  | nil => intro acc; rfl
  | cons kv rest ih => intro acc; simpa using ih _

lemma create_objects_foldl_mismatch (l : PyDict Meta) (image_id : Nat)
    (is_python : List String) :
    ∀ acc : List FileObj × PyDict AuditEntry,
      (∀ f ∈ acc.1, f.file_extension_mismatch = none) →
      ∀ f ∈ (l.foldl (fun acc kv =>
        (acc.1 ++ [buildFileObj image_id acc.2 is_python kv], acc.2)) acc).1,
        f.file_extension_mismatch = none := by
  induction l with
  | nil => intro acc hacc; simpa using hacc
  | cons kv rest ih =>
      intro acc hacc
      simp only [List.foldl_cons]
      refine ih _ ?_
      intro f hf
      rcases List.mem_append.mp hf with hmem | hmem
      · exact hacc f hmem
      · rcases List.mem_singleton.mp hmem with rfl
        rfl

/-! ### Lemmas about the CRUD primitives -/

lemma check_spec (s : DBState) (I : Nat) (h : String) :
    (check_duplicate_group_for_image s I h = (true, true) ∧ h ∈ s.groups ∧ (h, I) ∈ s.links) ∨
    (check_duplicate_group_for_image s I h = (true, false) ∧ h ∈ s.groups ∧ (h, I) ∉ s.links) ∨
    (check_duplicate_group_for_image s I h = (false, false) ∧ h ∉ s.groups) := by
  unfold check_duplicate_group_for_image
  split
  next hc =>
    split
    next hl => exact Or.inl ⟨rfl, List.elem_iff.mp hc, List.elem_iff.mp hl⟩
    next hl =>
      exact Or.inr (Or.inl ⟨rfl, List.elem_iff.mp hc,
        fun hm => hl (List.elem_iff.mpr hm)⟩)
  next hc => exact Or.inr (Or.inr ⟨rfl, fun hm => hc (List.elem_iff.mpr hm)⟩)

lemma check_of_mem (s : DBState) (I : Nat) (h : String)
    (hg : h ∈ s.groups) (hl : (h, I) ∈ s.links) :
    check_duplicate_group_for_image s I h = (true, true) := by
  unfold check_duplicate_group_for_image
  rw [if_pos (List.elem_iff.mpr hg), if_pos (List.elem_iff.mpr hl)]

lemma insert_group_result (h : String) (st : DBState) :
    (insert_duplicate_group h st).2 = st ∨
    ((insert_duplicate_group h st).2 = { st with groups := st.groups ++ [h] } ∧
      h ∉ st.groups) := by
  unfold insert_duplicate_group
  split
  next => exact Or.inl rfl
  next hc => exact Or.inr ⟨rfl, fun hmem => hc (List.elem_iff.mpr hmem)⟩

lemma insert_group_frame (h : String) (st : DBState) :
    (insert_duplicate_group h st).2.files = st.files ∧
    (insert_duplicate_group h st).2.fileHashes = st.fileHashes ∧
    (insert_duplicate_group h st).2.images = st.images ∧
    (insert_duplicate_group h st).2.links = st.links ∧
    (insert_duplicate_group h st).2.members = st.members := by
  unfold insert_duplicate_group
  split
  next => exact ⟨rfl, rfl, rfl, rfl, rfl⟩
  next => exact ⟨rfl, rfl, rfl, rfl, rfl⟩

lemma insert_group_establishes (h : String) (st : DBState) :
    h ∈ (insert_duplicate_group h st).2.groups ∨ h ∈ st.groups := by
  rcases insert_group_result h st with heq | ⟨heq, -⟩
  · rcases Decidable.em (h ∈ st.groups) with hmem | hmem
    · exact Or.inr hmem
    · rw [heq]; exact Or.inr (by
        exfalso
        revert heq
        unfold insert_duplicate_group
        split
        next hc => exact fun _ => hmem (List.elem_iff.mp hc)
        next => intro hcontra; exact absurd (congrArg DBState.groups hcontra) (by simp))
  · rw [heq]; exact Or.inl (by simp)

lemma link_frame (h : String) (I : Nat) (st : DBState) :
    (link_duplicate_group_to_image h I st).2.files = st.files ∧
    (link_duplicate_group_to_image h I st).2.fileHashes = st.fileHashes ∧
    (link_duplicate_group_to_image h I st).2.images = st.images ∧
    (link_duplicate_group_to_image h I st).2.groups = st.groups ∧
    (link_duplicate_group_to_image h I st).2.members = st.members := by
  unfold link_duplicate_group_to_image
  repeat' split
  all_goals exact ⟨rfl, rfl, rfl, rfl, rfl⟩

lemma link_result (h : String) (I : Nat) (st : DBState) :
    (link_duplicate_group_to_image h I st).2 = st ∨
    ((link_duplicate_group_to_image h I st).2 =
        { st with links := st.links ++ [(h, I)] } ∧ (h, I) ∉ st.links) := by
  unfold link_duplicate_group_to_image
  split
  next =>
    split
    next => exact Or.inl rfl
    next =>
      split
      next hcond =>
        exact Or.inr ⟨rfl, fun hmem => hcond.2 (List.elem_iff.mpr hmem)⟩
      next => exact Or.inl rfl
  next => exact Or.inl rfl

lemma link_establishes (h : String) (I : Nat) (st : DBState)
    (hh : h ≠ "") (hI : 0 < I) (hg : h ∈ st.groups) (him : I ∈ st.images) :
    (h, I) ∈ (link_duplicate_group_to_image h I st).2.links := by
  unfold link_duplicate_group_to_image
  rw [if_pos ⟨hI, hh⟩, if_neg (fun hc => hc (List.elem_iff.mpr hg))]
  split
  next => simp
  next hcond =>
    have hlinked : (h, I) ∈ st.links := by
      have := not_and.mp hcond (List.elem_iff.mpr him)
      exact List.elem_iff.mp (Decidable.not_not.mp this)
    exact hlinked

lemma insert_member_frame (h : String) (I fid : Nat) (st : DBState) :
    (insert_duplicate_member h I fid st).2.files = st.files ∧
    (insert_duplicate_member h I fid st).2.fileHashes = st.fileHashes ∧
    (insert_duplicate_member h I fid st).2.images = st.images ∧
    (insert_duplicate_member h I fid st).2.groups = st.groups ∧
    (insert_duplicate_member h I fid st).2.links = st.links := by
  unfold insert_duplicate_member
  repeat' split
  all_goals exact ⟨rfl, rfl, rfl, rfl, rfl⟩

lemma insert_member_members (h : String) (I fid : Nat) (st : DBState) :
    (insert_duplicate_member h I fid st).2.members = st.members ∨
    ((insert_duplicate_member h I fid st).2.members = st.members ++ [(h, fid)] ∧
      fid ∉ st.members.map Prod.snd) := by
  unfold insert_duplicate_member
  split
  next =>
    split
    next =>
      split
      next => exact Or.inl rfl
      next hany =>
        refine Or.inr ⟨rfl, fun hmem => hany ?_⟩
        rcases List.mem_map.mp hmem with ⟨m, hm, hm2⟩
        exact List.any_eq_true.mpr ⟨m, hm, by simp [hm2]⟩
    next => exact Or.inl rfl
  next => exact Or.inl rfl

lemma insert_member_establishes (h : String) (I fid : Nat) (st : DBState)
    (hh : h ≠ "") (hI : 0 < I) (hg : h ∈ st.groups) (hl : (h, I) ∈ st.links) :
    fid ∈ (insert_duplicate_member h I fid st).2.members.map Prod.snd := by
  unfold insert_duplicate_member
  rw [if_pos ⟨hh, hI⟩, if_pos ⟨List.elem_iff.mpr hg, List.elem_iff.mpr hl⟩]
  split
  next hany =>
    rcases List.any_eq_true.mp hany with ⟨m, hm, hbeq⟩
    exact List.mem_map.mpr ⟨m, hm, by simpa using hbeq⟩
  next => simp

lemma insert_member_noop (h : String) (I fid : Nat) (st : DBState)
    (hmem : fid ∈ st.members.map Prod.snd) :
    (insert_duplicate_member h I fid st).2 = st := by
  have hany : st.members.any (fun m => m.2 == fid) = true := by
    rcases List.mem_map.mp hmem with ⟨m, hm, hm2⟩
    exact List.any_eq_true.mpr ⟨m, hm, by simp [hm2]⟩
  unfold insert_duplicate_member
  repeat' split
  all_goals rfl

lemma insert_member_snd_nodup (h : String) (I fid : Nat) (st : DBState)
    (hnd : (st.members.map Prod.snd).Nodup) :
    ((insert_duplicate_member h I fid st).2.members.map Prod.snd).Nodup := by
  rcases insert_member_members h I fid st with heq | ⟨heq, hnot⟩
  · rw [heq]; exact hnd
  · rw [heq]
    simp only [List.map_append, List.map_cons, List.map_nil]
    refine List.Nodup.append hnd (List.nodup_singleton fid) ?_
    intro a ha hb
    simp only [List.mem_singleton] at hb
    subst hb
    exact hnot ha

/-! ### Lemmas about the member-insertion loop of `reconcile_hash` -/

lemma memFold_frame (h : String) (I : Nat) (fids : List Nat) :
    ∀ st : DBState,
      (fids.foldl (fun st3 fid => (insert_duplicate_member h I fid st3).2) st).files = st.files ∧
      (fids.foldl (fun st3 fid => (insert_duplicate_member h I fid st3).2) st).fileHashes = st.fileHashes ∧
      (fids.foldl (fun st3 fid => (insert_duplicate_member h I fid st3).2) st).images = st.images ∧
      (fids.foldl (fun st3 fid => (insert_duplicate_member h I fid st3).2) st).groups = st.groups ∧
      (fids.foldl (fun st3 fid => (insert_duplicate_member h I fid st3).2) st).links = st.links := by
  induction fids with
  | nil => intro st; exact ⟨rfl, rfl, rfl, rfl, rfl⟩
  | cons fid rest ih =>
      intro st
      simp only [List.foldl_cons]
      obtain ⟨f1, f2, f3, f4, f5⟩ := ih ((insert_duplicate_member h I fid st).2)
      obtain ⟨g1, g2, g3, g4, g5⟩ := insert_member_frame h I fid st
      exact ⟨f1.trans g1, f2.trans g2, f3.trans g3, f4.trans g4, f5.trans g5⟩

lemma memFold_members_ext (h : String) (I : Nat) (fids : List Nat) :
    ∀ st : DBState, ∃ ext : List (String × Nat),
      (fids.foldl (fun st3 fid => (insert_duplicate_member h I fid st3).2) st).members
        = st.members ++ ext ∧ ∀ m ∈ ext, m.1 = h := by
  induction fids with
  | nil => intro st; exact ⟨[], by simp, by simp⟩
  | cons fid rest ih =>
      intro st
      simp only [List.foldl_cons]
      obtain ⟨ext, hext, hall⟩ := ih ((insert_duplicate_member h I fid st).2)
      rcases insert_member_members h I fid st with heq | ⟨heq, -⟩
      · exact ⟨ext, by rw [hext, heq], hall⟩
      · refine ⟨(h, fid) :: ext, ?_, ?_⟩
        · rw [hext, heq]; simp
        · intro m hm
          rcases List.mem_cons.mp hm with rfl | hm
          · rfl
          · exact hall m hm

lemma memFold_snd_nodup (h : String) (I : Nat) (fids : List Nat) :
    ∀ st : DBState, (st.members.map Prod.snd).Nodup →
      ((fids.foldl (fun st3 fid => (insert_duplicate_member h I fid st3).2) st).members.map
        Prod.snd).Nodup := by
  induction fids with
  | nil => intro st hnd; exact hnd
  | cons fid rest ih =>
      intro st hnd
      simp only [List.foldl_cons]
      exact ih _ (insert_member_snd_nodup h I fid st hnd)

lemma memFold_establishes (h : String) (I : Nat) (fids : List Nat) :
    ∀ st : DBState, h ≠ "" → 0 < I → h ∈ st.groups → (h, I) ∈ st.links →
      ∀ fid ∈ fids,
        fid ∈ ((fids.foldl (fun st3 f => (insert_duplicate_member h I f st3).2) st).members.map
          Prod.snd) := by
  induction fids with
  | nil => intro st _ _ _ _ fid hfid; simp at hfid
  | cons fid0 rest ih =>
      intro st hh hI hg hl fid hfid
      simp only [List.foldl_cons]
      obtain ⟨g1, g2, g3, g4, g5⟩ := insert_member_frame h I fid0 st
      rcases List.mem_cons.mp hfid with rfl | hfid
      · have hbase : fid ∈ ((insert_duplicate_member h I fid st).2.members.map Prod.snd) :=
          insert_member_establishes h I fid st hh hI hg hl
        obtain ⟨ext, hext, -⟩ := memFold_members_ext h I rest ((insert_duplicate_member h I fid st).2)
        rcases List.mem_map.mp hbase with ⟨m, hm, hm2⟩
        exact List.mem_map.mpr ⟨m, by rw [hext]; exact List.mem_append_left _ hm, hm2⟩
      · exact ih ((insert_duplicate_member h I fid0 st).2) hh hI
          (by rw [g4]; exact hg) (by rw [g5]; exact hl) fid hfid

lemma memFold_noop (h : String) (I : Nat) (fids : List Nat) :
    ∀ st : DBState, (∀ fid ∈ fids, fid ∈ st.members.map Prod.snd) →
      fids.foldl (fun st3 fid => (insert_duplicate_member h I fid st3).2) st = st := by
  induction fids with
  | nil => intro st _; rfl
  | cons fid rest ih =>
      intro st hall
      simp only [List.foldl_cons]
      rw [insert_member_noop h I fid st (hall fid (by simp))]
      exact ih st (fun f hf => hall f (List.mem_cons_of_mem _ hf))

/-! ### Lemmas about `reconcile_link_step` (group creation and linking) -/

lemma link_step_frame (I : Nat) (st : DBState) (hg : String × List Nat) :
    (reconcile_link_step I st hg).files = st.files ∧
    (reconcile_link_step I st hg).fileHashes = st.fileHashes ∧
    (reconcile_link_step I st hg).images = st.images ∧
    (reconcile_link_step I st hg).members = st.members := by
  have hgroup : (reconcile_group_step I st hg).files = st.files ∧
      (reconcile_group_step I st hg).fileHashes = st.fileHashes ∧
      (reconcile_group_step I st hg).images = st.images ∧
      (reconcile_group_step I st hg).members = st.members := by
    unfold reconcile_group_step
    split
    · obtain ⟨a1, a2, a3, a4, a5⟩ := insert_group_frame hg.1 st
      obtain ⟨b1, b2, b3, b4, b5⟩ := link_frame hg.1 I (insert_duplicate_group hg.1 st).2
      exact ⟨b1.trans a1, b2.trans a2, b3.trans a3, b5.trans a5⟩
    · exact ⟨rfl, rfl, rfl, rfl⟩
  unfold reconcile_link_step
  split
  · obtain ⟨c1, c2, c3, c4, c5⟩ := link_frame hg.1 I (reconcile_group_step I st hg)
    exact ⟨c1.trans hgroup.1, c2.trans hgroup.2.1, c3.trans hgroup.2.2.1,
      c5.trans hgroup.2.2.2⟩
  · exact hgroup

lemma group_step_groups (I : Nat) (st : DBState) (hg : String × List Nat) :
    (reconcile_group_step I st hg).groups = st.groups ∨
    ((reconcile_group_step I st hg).groups = st.groups ++ [hg.1] ∧ hg.1 ∉ st.groups) := by
  unfold reconcile_group_step
  split
  · obtain ⟨-, -, -, b4, -⟩ := link_frame hg.1 I (insert_duplicate_group hg.1 st).2
    rw [b4]
    rcases insert_group_result hg.1 st with heq | ⟨heq, hnot⟩
    · rw [heq]; exact Or.inl rfl
    · rw [heq]; exact Or.inr ⟨rfl, hnot⟩
  · exact Or.inl rfl

lemma link_step_groups (I : Nat) (st : DBState) (hg : String × List Nat) :
    (reconcile_link_step I st hg).groups = st.groups ∨
    ((reconcile_link_step I st hg).groups = st.groups ++ [hg.1] ∧ hg.1 ∉ st.groups) := by
  unfold reconcile_link_step
  split
  · obtain ⟨-, -, -, c4, -⟩ := link_frame hg.1 I (reconcile_group_step I st hg)
    rw [c4]
    exact group_step_groups I st hg
  · exact group_step_groups I st hg

lemma link_step_links (I : Nat) (st : DBState) (hg : String × List Nat) :
    (reconcile_link_step I st hg).links = st.links ∨
    ((reconcile_link_step I st hg).links = st.links ++ [(hg.1, I)] ∧
      (hg.1, I) ∉ st.links) := by
  have hgroup : ∀ st' : DBState,
      (reconcile_group_step I st hg).links = st.links ∨
      ((reconcile_group_step I st hg).links = st.links ++ [(hg.1, I)] ∧
        (hg.1, I) ∉ st.links) := by
    intro _
    unfold reconcile_group_step
    split
    · obtain ⟨-, -, -, a4, a5⟩ := insert_group_frame hg.1 st
      rcases link_result hg.1 I (insert_duplicate_group hg.1 st).2 with heq | ⟨heq, hnot⟩
      · rw [heq, a4]; exact Or.inl rfl
      · rw [heq]
        refine Or.inr ⟨by simp [a4], by rw [a4] at hnot; exact hnot⟩
    · exact Or.inl rfl
  unfold reconcile_link_step
  split
  next hcond =>
    -- second statement only runs when the first did not (exists = true)
    have hgst : reconcile_group_step I st hg = st := by
      unfold reconcile_group_step
      rw [if_neg (by rw [hcond.1]; simp)]
    rw [hgst]
    rcases link_result hg.1 I st with heq | ⟨heq, hnot⟩
    · rw [heq]; exact Or.inl rfl
    · rw [heq]; exact Or.inr ⟨rfl, hnot⟩
  next => exact hgroup st

lemma insert_group_of_not_mem (h : String) (st : DBState) (hnot : h ∉ st.groups) :
    (insert_duplicate_group h st).2 = { st with groups := st.groups ++ [h] } := by
  unfold insert_duplicate_group
  rw [if_neg (fun hc => hnot (List.elem_iff.mp hc))]

lemma link_step_establishes (I : Nat) (st : DBState) (hg : String × List Nat)
    (hh : hg.1 ≠ "") (hI : 0 < I) (him : I ∈ st.images) :
    hg.1 ∈ (reconcile_link_step I st hg).groups ∧
    (hg.1, I) ∈ (reconcile_link_step I st hg).links := by
  rcases check_spec st I hg.1 with ⟨hc, hgm, hlm⟩ | ⟨hc, hgm, hlm⟩ | ⟨hc, hgm⟩
  · -- exists and linked: neither statement runs
    have hgst : reconcile_group_step I st hg = st := by
      unfold reconcile_group_step
      rw [if_neg (by rw [hc]; simp)]
    have hlst : reconcile_link_step I st hg = st := by
      unfold reconcile_link_step
      rw [if_neg (by rw [hc]; simp), hgst]
    rw [hlst]
    exact ⟨hgm, hlm⟩
  · -- exists, not linked: only the second statement runs, on st
    have hgst : reconcile_group_step I st hg = st := by
      unfold reconcile_group_step
      rw [if_neg (by rw [hc]; simp)]
    have hlst : reconcile_link_step I st hg =
        (link_duplicate_group_to_image hg.1 I st).2 := by
      unfold reconcile_link_step
      rw [if_pos (by rw [hc]; simp), hgst]
    rw [hlst]
    obtain ⟨-, -, -, b4, -⟩ := link_frame hg.1 I st
    exact ⟨by rw [b4]; exact hgm, link_establishes hg.1 I st hh hI hgm him⟩
  · -- does not exist: the first statement creates the group and links it
    have hins : (insert_duplicate_group hg.1 st).2 =
        { st with groups := st.groups ++ [hg.1] } :=
      insert_group_of_not_mem hg.1 st hgm
    have hgst : reconcile_group_step I st hg =
        (link_duplicate_group_to_image hg.1 I (insert_duplicate_group hg.1 st).2).2 := by
      unfold reconcile_group_step
      rw [if_pos (by rw [hc])]
    have hlst : reconcile_link_step I st hg = reconcile_group_step I st hg := by
      unfold reconcile_link_step
      rw [if_neg (by rw [hc]; simp)]
    have hmem : hg.1 ∈ (insert_duplicate_group hg.1 st).2.groups := by
      rw [hins]; simp
    have himg : I ∈ (insert_duplicate_group hg.1 st).2.images := by
      rw [hins]; exact him
    obtain ⟨-, -, -, b4, -⟩ :=
      link_frame hg.1 I (insert_duplicate_group hg.1 st).2
    rw [hlst, hgst]
    exact ⟨by rw [b4]; exact hmem,
      link_establishes hg.1 I (insert_duplicate_group hg.1 st).2 hh hI hmem himg⟩

lemma link_step_noop (I : Nat) (st : DBState) (hg : String × List Nat)
    (hgm : hg.1 ∈ st.groups) (hlm : (hg.1, I) ∈ st.links) :
    reconcile_link_step I st hg = st := by
  have hc := check_of_mem st I hg.1 hgm hlm
  have hgst : reconcile_group_step I st hg = st := by
    unfold reconcile_group_step
    rw [if_neg (by rw [hc]; simp)]
  unfold reconcile_link_step
  rw [if_neg (by rw [hc]; simp), hgst]

/-! ### Lemmas about `reconcile_hash` -/

lemma reconcile_skip (I : Nat) (st : DBState) (hg : String × List Nat)
    (hlen : hg.2.length < 2) : reconcile_hash I st hg = st := by
  unfold reconcile_hash
  rw [if_neg (by omega)]

lemma reconcile_frame (I : Nat) (st : DBState) (hg : String × List Nat) :
    (reconcile_hash I st hg).files = st.files ∧
    (reconcile_hash I st hg).fileHashes = st.fileHashes ∧
    (reconcile_hash I st hg).images = st.images := by
  unfold reconcile_hash
  split
  · obtain ⟨f1, f2, f3, -, -⟩ := memFold_frame hg.1 I hg.2 (reconcile_link_step I st hg)
    obtain ⟨l1, l2, l3, -⟩ := link_step_frame I st hg
    exact ⟨f1.trans l1, f2.trans l2, f3.trans l3⟩
  · exact ⟨rfl, rfl, rfl⟩

lemma reconcile_groups_shape (I : Nat) (st : DBState) (hg : String × List Nat) :
    (reconcile_hash I st hg).groups = st.groups ∨
    ((reconcile_hash I st hg).groups = st.groups ++ [hg.1] ∧ hg.1 ∉ st.groups) := by
  unfold reconcile_hash
  split
  · obtain ⟨-, -, -, f4, -⟩ := memFold_frame hg.1 I hg.2 (reconcile_link_step I st hg)
    rw [f4]
    exact link_step_groups I st hg
  · exact Or.inl rfl

lemma reconcile_links_shape (I : Nat) (st : DBState) (hg : String × List Nat) :
    (reconcile_hash I st hg).links = st.links ∨
    ((reconcile_hash I st hg).links = st.links ++ [(hg.1, I)] ∧
      (hg.1, I) ∉ st.links) := by
  unfold reconcile_hash
  split
  · obtain ⟨-, -, -, -, f5⟩ := memFold_frame hg.1 I hg.2 (reconcile_link_step I st hg)
    rw [f5]
    exact link_step_links I st hg
  · exact Or.inl rfl

lemma reconcile_members_ext (I : Nat) (st : DBState) (hg : String × List Nat) :
    ∃ ext : List (String × Nat),
      (reconcile_hash I st hg).members = st.members ++ ext ∧ ∀ m ∈ ext, m.1 = hg.1 := by
  unfold reconcile_hash
  split
  · obtain ⟨ext, hext, hall⟩ := memFold_members_ext hg.1 I hg.2 (reconcile_link_step I st hg)
    obtain ⟨-, -, -, l4⟩ := link_step_frame I st hg
    exact ⟨ext, by rw [hext, l4], hall⟩
  · exact ⟨[], by simp, by simp⟩

lemma reconcile_WF (I : Nat) (st : DBState) (hg : String × List Nat)
    (hWF : WF st) : WF (reconcile_hash I st hg) := by
  obtain ⟨w1, w2, w3, w4, w5⟩ := hWF
  obtain ⟨hf1, hf2, hf3⟩ := reconcile_frame I st hg
  refine ⟨?_, ?_, ?_, ?_, ?_⟩
  · rcases reconcile_groups_shape I st hg with heq | ⟨heq, hnot⟩
    · rw [heq]; exact w1
    · rw [heq]
      refine List.Nodup.append w1 (List.nodup_singleton hg.1) ?_
      intro a ha hb
      simp only [List.mem_singleton] at hb
      subst hb
      exact hnot ha
  · rcases reconcile_links_shape I st hg with heq | ⟨heq, hnot⟩
    · rw [heq]; exact w2
    · rw [heq]
      refine List.Nodup.append w2 (List.nodup_singleton (hg.1, I)) ?_
      intro a ha hb
      simp only [List.mem_singleton] at hb
      subst hb
      exact hnot ha
  · unfold reconcile_hash
    split
    · obtain ⟨-, -, -, l4⟩ := link_step_frame I st hg
      refine memFold_snd_nodup hg.1 I hg.2 (reconcile_link_step I st hg) ?_
      rw [l4]
      exact w3
    · exact w3
  · rw [hf2]; exact w4
  · rw [hf2, hf1]; exact w5

lemma reconcile_establishes (I : Nat) (st : DBState) (hg : String × List Nat)
    (hh : hg.1 ≠ "") (hI : 0 < I) (him : I ∈ st.images) (hlen : 2 ≤ hg.2.length) :
    hg.1 ∈ (reconcile_hash I st hg).groups ∧
    (hg.1, I) ∈ (reconcile_hash I st hg).links ∧
    ∀ fid ∈ hg.2, fid ∈ (reconcile_hash I st hg).members.map Prod.snd := by
  obtain ⟨hgm, hlm⟩ := link_step_establishes I st hg hh hI him
  unfold reconcile_hash
  rw [if_pos hlen]
  obtain ⟨-, -, -, f4, f5⟩ := memFold_frame hg.1 I hg.2 (reconcile_link_step I st hg)
  exact ⟨by rw [f4]; exact hgm, by rw [f5]; exact hlm,
    memFold_establishes hg.1 I hg.2 (reconcile_link_step I st hg) hh hI hgm hlm⟩

lemma reconcile_noop (I : Nat) (st : DBState) (hg : String × List Nat)
    (hrec : 2 ≤ hg.2.length →
      hg.1 ∈ st.groups ∧ (hg.1, I) ∈ st.links ∧
      ∀ fid ∈ hg.2, fid ∈ st.members.map Prod.snd) :
    reconcile_hash I st hg = st := by
  unfold reconcile_hash
  split
  next hlen =>
    obtain ⟨h1, h2, h3⟩ := hrec hlen
    rw [link_step_noop I st hg h1 h2]
    exact memFold_noop hg.1 I hg.2 st h3
  next => rfl

lemma reconcile_mono (I : Nat) (st : DBState) (hg : String × List Nat) :
    (∀ x ∈ st.groups, x ∈ (reconcile_hash I st hg).groups) ∧
    (∀ x ∈ st.links, x ∈ (reconcile_hash I st hg).links) ∧
    (∀ x ∈ st.members.map Prod.snd, x ∈ (reconcile_hash I st hg).members.map Prod.snd) := by
  refine ⟨?_, ?_, ?_⟩
  · intro x hx
    rcases reconcile_groups_shape I st hg with heq | ⟨heq, -⟩
    · rw [heq]; exact hx
    · rw [heq]; exact List.mem_append_left _ hx
  · intro x hx
    rcases reconcile_links_shape I st hg with heq | ⟨heq, -⟩
    · rw [heq]; exact hx
    · rw [heq]; exact List.mem_append_left _ hx
  · intro x hx
    obtain ⟨ext, hext, -⟩ := reconcile_members_ext I st hg
    rw [hext, List.map_append]
    exact List.mem_append_left _ hx

lemma reconcile_other_hash (I : Nat) (st : DBState) (hg : String × List Nat)
    (h : String) (hne : hg.1 ≠ h) :
    (reconcile_hash I st hg).groups.count h = st.groups.count h ∧
    (reconcile_hash I st hg).links.count (h, I) = st.links.count (h, I) ∧
    (reconcile_hash I st hg).members.filter (fun m => m.1 == h) =
      st.members.filter (fun m => m.1 == h) := by
  refine ⟨?_, ?_, ?_⟩
  · rcases reconcile_groups_shape I st hg with heq | ⟨heq, -⟩
    · rw [heq]
    · rw [heq, List.count_append]
      have : List.count h [hg.1] = 0 :=
        List.count_eq_zero_of_not_mem (by simp [Ne.symm hne])
      omega
  · rcases reconcile_links_shape I st hg with heq | ⟨heq, -⟩
    · rw [heq]
    · rw [heq, List.count_append]
      have : List.count (h, I) [(hg.1, I)] = 0 :=
        List.count_eq_zero_of_not_mem (by simp [Ne.symm hne])
      omega
  · obtain ⟨ext, hext, hall⟩ := reconcile_members_ext I st hg
    rw [hext, List.filter_append]
    have : ext.filter (fun m => m.1 == h) = [] := by
      rw [List.filter_eq_nil_iff]
      intro m hm
      simp only [beq_iff_eq]
      rw [hall m hm]
      exact hne
    rw [this, List.append_nil]

/-! ### Lemmas about the reconciliation fold of `detect_duplicates` -/

lemma detect_fold_frame (I : Nat) (l : List (String × List Nat)) :
    ∀ st : DBState,
      (l.foldl (reconcile_hash I) st).files = st.files ∧
      (l.foldl (reconcile_hash I) st).fileHashes = st.fileHashes ∧
      (l.foldl (reconcile_hash I) st).images = st.images := by
  induction l with
  | nil => intro st; exact ⟨rfl, rfl, rfl⟩
  | cons hg rest ih =>
      intro st
      simp only [List.foldl_cons]
      obtain ⟨f1, f2, f3⟩ := ih (reconcile_hash I st hg)
      obtain ⟨g1, g2, g3⟩ := reconcile_frame I st hg
      exact ⟨f1.trans g1, f2.trans g2, f3.trans g3⟩

lemma detect_fold_WF (I : Nat) (l : List (String × List Nat)) :
    ∀ st : DBState, WF st → WF (l.foldl (reconcile_hash I) st) := by
  induction l with
  | nil => intro st hWF; exact hWF
  | cons hg rest ih =>
      intro st hWF
      simp only [List.foldl_cons]
      exact ih _ (reconcile_WF I st hg hWF)

lemma detect_fold_mono (I : Nat) (l : List (String × List Nat)) :
    ∀ st : DBState,
      (∀ x ∈ st.groups, x ∈ (l.foldl (reconcile_hash I) st).groups) ∧
      (∀ x ∈ st.links, x ∈ (l.foldl (reconcile_hash I) st).links) ∧
      (∀ x ∈ st.members.map Prod.snd,
        x ∈ (l.foldl (reconcile_hash I) st).members.map Prod.snd) := by
  induction l with
  | nil => intro st; exact ⟨fun x hx => hx, fun x hx => hx, fun x hx => hx⟩
  | cons hg rest ih =>
      intro st
      simp only [List.foldl_cons]
      obtain ⟨f1, f2, f3⟩ := ih (reconcile_hash I st hg)
      obtain ⟨g1, g2, g3⟩ := reconcile_mono I st hg
      exact ⟨fun x hx => f1 x (g1 x hx), fun x hx => f2 x (g2 x hx),
        fun x hx => f3 x (g3 x hx)⟩

lemma detect_fold_establishes (I : Nat) (l : List (String × List Nat)) :
    ∀ st : DBState, 0 < I → I ∈ st.images → (∀ hg ∈ l, hg.1 ≠ "") →
      ∀ hg ∈ l, 2 ≤ hg.2.length →
        hg.1 ∈ (l.foldl (reconcile_hash I) st).groups ∧
        (hg.1, I) ∈ (l.foldl (reconcile_hash I) st).links ∧
        ∀ fid ∈ hg.2, fid ∈ (l.foldl (reconcile_hash I) st).members.map Prod.snd := by
  induction l with
  | nil => intro st _ _ _ hg hmem; simp at hmem
  | cons hg0 rest ih =>
      intro st hI him hne hg hmem hlen
      simp only [List.foldl_cons]
      obtain ⟨f1, f2, f3⟩ := reconcile_frame I st hg0
      rcases List.mem_cons.mp hmem with rfl | hmem
      · obtain ⟨e1, e2, e3⟩ :=
          reconcile_establishes I st hg (hne hg (by simp)) hI him hlen
        obtain ⟨m1, m2, m3⟩ := detect_fold_mono I rest (reconcile_hash I st hg)
        exact ⟨m1 hg.1 e1, m2 (hg.1, I) e2,
          fun fid hfid => m3 fid (e3 fid hfid)⟩
      · exact ih (reconcile_hash I st hg0) hI (by rw [f3]; exact him)
          (fun g hgmem => hne g (List.mem_cons_of_mem _ hgmem)) hg hmem hlen

lemma detect_fold_noop (I : Nat) (l : List (String × List Nat)) :
    ∀ st : DBState,
      (∀ hg ∈ l, 2 ≤ hg.2.length →
        hg.1 ∈ st.groups ∧ (hg.1, I) ∈ st.links ∧
        ∀ fid ∈ hg.2, fid ∈ st.members.map Prod.snd) →
      l.foldl (reconcile_hash I) st = st := by
  induction l with
  | nil => intro st _; rfl
  | cons hg0 rest ih =>
      intro st hall
      simp only [List.foldl_cons]
      rw [reconcile_noop I st hg0 (hall hg0 (by simp))]
      exact ih st (fun g hgmem => hall g (List.mem_cons_of_mem _ hgmem))

lemma detect_fold_other_hash (I : Nat) (l : List (String × List Nat)) (h : String) :
    ∀ st : DBState, (∀ hg ∈ l, hg.1 ≠ h ∨ hg.2.length < 2) →
      (l.foldl (reconcile_hash I) st).groups.count h = st.groups.count h ∧
      (l.foldl (reconcile_hash I) st).links.count (h, I) = st.links.count (h, I) ∧
      (l.foldl (reconcile_hash I) st).members.filter (fun m => m.1 == h) =
        st.members.filter (fun m => m.1 == h) := by
  induction l with
  | nil => intro st _; exact ⟨rfl, rfl, rfl⟩
  | cons hg0 rest ih =>
      intro st hall
      simp only [List.foldl_cons]
      obtain ⟨f1, f2, f3⟩ := ih (reconcile_hash I st hg0)
        (fun g hgmem => hall g (List.mem_cons_of_mem _ hgmem))
      rcases hall hg0 (by simp) with hne | hlen
      · obtain ⟨g1, g2, g3⟩ := reconcile_other_hash I st hg0 h hne
        exact ⟨f1.trans g1, f2.trans g2, f3.trans g3⟩
      · rw [reconcile_skip I st hg0 hlen] at f1 f2 f3 ⊢
        exact ⟨f1, f2, f3⟩

/-! ### Lemmas about the `hash_groups` dict of `detect_duplicates` -/

lemma setdefault_keys (gs : List (String × List Nat)) (h : String) (fid : Nat) :
    (setdefaultAppend gs h fid).map Prod.fst =
      if h ∈ gs.map Prod.fst then gs.map Prod.fst else gs.map Prod.fst ++ [h] := by
  induction gs with
  | nil => simp [setdefaultAppend]
  | cons kv rest ih =>
      obtain ⟨k, v⟩ := kv
      by_cases hk : k = h
      · subst hk
        simp [setdefaultAppend]
      · rw [show setdefaultAppend ((k, v) :: rest) h fid =
            (k, v) :: setdefaultAppend rest h fid by
          simp [setdefaultAppend, hk]]
        simp only [List.map_cons, ih]
        by_cases hmem : h ∈ rest.map Prod.fst
        · rw [if_pos hmem, if_pos (List.mem_cons_of_mem _ hmem)]
        · rw [if_neg hmem, if_neg ?hc]
          case hc =>
            simp only [List.mem_cons, not_or]
            exact ⟨fun hcontra => hk hcontra.symm, hmem⟩
          rfl

lemma setdefault_mem_ne (gs : List (String × List Nat)) (h : String) (fid : Nat) :
    ∀ p ∈ setdefaultAppend gs h fid, p.1 ≠ h → p ∈ gs := by
  induction gs with
  | nil =>
      intro p hp hne
      simp only [setdefaultAppend, List.mem_singleton] at hp
      subst hp
      exact absurd rfl hne
  | cons kv rest ih =>
      obtain ⟨k, v⟩ := kv
      intro p hp hne
      by_cases hk : k = h
      · subst hk
        simp only [setdefaultAppend, if_pos rfl] at hp
        rcases List.mem_cons.mp hp with rfl | hp
        · exact absurd rfl hne
        · exact List.mem_cons_of_mem _ hp
      · simp only [setdefaultAppend, if_neg hk] at hp
        rcases List.mem_cons.mp hp with rfl | hp
        · exact List.mem_cons_self _ _
        · exact List.mem_cons_of_mem _ (ih p hp hne)

lemma setdefault_mem_eq (gs : List (String × List Nat)) (h : String) (fid : Nat)
    (hnd : (gs.map Prod.fst).Nodup) :
    ∀ p ∈ setdefaultAppend gs h fid, p.1 = h →
      (∃ v, (h, v) ∈ gs ∧ p.2 = v ++ [fid]) ∨
      (h ∉ gs.map Prod.fst ∧ p.2 = [fid]) := by
  induction gs with
  | nil =>
      intro p hp _
      simp only [setdefaultAppend, List.mem_singleton] at hp
      subst hp
      exact Or.inr ⟨by simp, rfl⟩
  | cons kv rest ih =>
      obtain ⟨k, v⟩ := kv
      intro p hp heq
      simp only [List.map_cons, List.nodup_cons] at hnd
      by_cases hk : k = h
      · subst hk
        simp only [setdefaultAppend, if_pos rfl] at hp
        rcases List.mem_cons.mp hp with rfl | hp
        · exact Or.inl ⟨v, List.mem_cons_self _ _, rfl⟩
        · exfalso
          have : p.1 ∈ rest.map Prod.fst := List.mem_map.mpr ⟨p, hp, rfl⟩
          rw [heq] at this
          exact hnd.1 this
      · simp only [setdefaultAppend, if_neg hk] at hp
        rcases List.mem_cons.mp hp with rfl | hp
        · exact absurd heq hk
        · rcases ih hnd.2 p hp heq with ⟨v', hv', hpv⟩ | ⟨hnot, hpv⟩
          · exact Or.inl ⟨v', List.mem_cons_of_mem _ hv', hpv⟩
          · refine Or.inr ⟨?_, hpv⟩
            simp only [List.map_cons, List.mem_cons]
            rintro (hkh | hmem)
            · exact hk hkh.symm
            · exact hnot hmem

lemma hash_groups_fold_inv :
    ∀ (rest processed : List FileHashEntry) (gs : List (String × List Nat)),
      (gs.map Prod.fst).Nodup →
      (∀ p ∈ gs,
        p.2 = (processed.filter (fun e => e.file_hash == p.1)).map FileHashEntry.file_id) →
      (∀ e ∈ processed, e.file_hash ∈ gs.map Prod.fst) →
      (∀ p ∈ gs, ∃ e ∈ processed, e.file_hash = p.1) →
      (((rest.foldl (fun gs e => setdefaultAppend gs e.file_hash e.file_id) gs).map
          Prod.fst).Nodup ∧
       (∀ p ∈ rest.foldl (fun gs e => setdefaultAppend gs e.file_hash e.file_id) gs,
        p.2 = ((processed ++ rest).filter
          (fun e => e.file_hash == p.1)).map FileHashEntry.file_id) ∧
       (∀ e ∈ processed ++ rest,
        e.file_hash ∈ (rest.foldl
          (fun gs e => setdefaultAppend gs e.file_hash e.file_id) gs).map Prod.fst) ∧
       (∀ p ∈ rest.foldl (fun gs e => setdefaultAppend gs e.file_hash e.file_id) gs,
        ∃ e ∈ processed ++ rest, e.file_hash = p.1)) := by
  intro rest
  induction rest with
  | nil =>
      intro processed gs hnd hval hcov hwit
      simp only [List.foldl_nil, List.append_nil]
      exact ⟨hnd, hval, hcov, hwit⟩
  | cons e0 rest ih =>
      intro processed gs hnd hval hcov hwit
      simp only [List.foldl_cons]
      have hstep_nd : ((setdefaultAppend gs e0.file_hash e0.file_id).map Prod.fst).Nodup := by
        rw [setdefault_keys]
        split
        · exact hnd
        next hnot =>
          refine List.Nodup.append hnd (List.nodup_singleton _) ?_
          intro a ha hb
          simp only [List.mem_singleton] at hb
          subst hb
          exact hnot ha
      have hstep_val : ∀ p ∈ setdefaultAppend gs e0.file_hash e0.file_id,
          p.2 = ((processed ++ [e0]).filter
            (fun e => e.file_hash == p.1)).map FileHashEntry.file_id := by
        intro p hp
        by_cases hph : p.1 = e0.file_hash
        · rcases setdefault_mem_eq gs e0.file_hash e0.file_id hnd p hp hph with
            ⟨v, hv, hpv⟩ | ⟨hnot, hpv⟩
          · have hv2 : v = (processed.filter
                (fun e => e.file_hash == e0.file_hash)).map FileHashEntry.file_id :=
              hval (e0.file_hash, v) hv
            rw [hpv, hv2, hph, List.filter_append]
            rw [show List.filter (fun e => e.file_hash == e0.file_hash) [e0] = [e0] by
              simp]
            simp
          · rw [hpv]
            have hfilter : processed.filter (fun e => e.file_hash == p.1) = [] := by
              rw [List.filter_eq_nil_iff]
              intro e he
              simp only [beq_iff_eq]
              intro hcontra
              apply hnot
              rw [← hph, ← hcontra]
              exact hcov e he
            rw [List.filter_append, hfilter]
            simp [hph]
        · have hpgs : p ∈ gs := setdefault_mem_ne gs e0.file_hash e0.file_id p hp hph
          rw [hval p hpgs, List.filter_append]
          rw [show List.filter (fun e => e.file_hash == p.1) [e0] = [] by
            rw [List.filter_eq_nil_iff]
            intro a ha
            simp only [List.mem_singleton] at ha
            subst ha
            simp only [beq_iff_eq]
            exact fun hcontra => hph hcontra.symm]
          simp
      have hstep_cov : ∀ e ∈ processed ++ [e0],
          e.file_hash ∈ (setdefaultAppend gs e0.file_hash e0.file_id).map Prod.fst := by
        intro e he
        rw [setdefault_keys]
        rcases List.mem_append.mp he with he | he
        · split
          · exact hcov e he
          · exact List.mem_append_left _ (hcov e he)
        · simp only [List.mem_singleton] at he
          subst he
          split
          next hmem => exact hmem
          next => simp
      have hstep_wit : ∀ p ∈ setdefaultAppend gs e0.file_hash e0.file_id,
          ∃ e ∈ processed ++ [e0], e.file_hash = p.1 := by
        intro p hp
        by_cases hph : p.1 = e0.file_hash
        · exact ⟨e0, List.mem_append_right _ (by simp), hph.symm⟩
        · obtain ⟨e, he, hehash⟩ :=
            hwit p (setdefault_mem_ne gs e0.file_hash e0.file_id p hp hph)
          exact ⟨e, List.mem_append_left _ he, hehash⟩
      have := ih (processed ++ [e0]) (setdefaultAppend gs e0.file_hash e0.file_id)
        hstep_nd hstep_val hstep_cov hstep_wit
      rw [show (processed ++ [e0]) ++ rest = processed ++ e0 :: rest by simp] at this
      exact this

lemma hash_groups_spec (entries : List FileHashEntry) :
    ((hash_groups_of entries).map Prod.fst).Nodup ∧
    (∀ p ∈ hash_groups_of entries,
      p.2 = (entries.filter (fun e => e.file_hash == p.1)).map FileHashEntry.file_id) ∧
    (∀ e ∈ entries, e.file_hash ∈ (hash_groups_of entries).map Prod.fst) ∧
    (∀ p ∈ hash_groups_of entries, ∃ e ∈ entries, e.file_hash = p.1) := by
  have := hash_groups_fold_inv entries [] [] (by simp) (by simp) (by simp) (by simp)
  simpa [hash_groups_of] using this

/-! ### Lemmas about `detect_duplicates` (intra-image mode) -/

lemma count_one_of_nodup_mem {α : Type} [BEq α] [LawfulBEq α] :
    ∀ (l : List α) (a : α), l.Nodup → a ∈ l → l.count a = 1 := by
  intro l
  induction l with
  | nil => intro a _ hmem; simp at hmem
  | cons b rest ih =>
      intro a hnd hmem
      rw [List.count_cons]
      rcases List.mem_cons.mp hmem with rfl | hmem
      · rw [List.count_eq_zero_of_not_mem (by simpa using (List.nodup_cons.mp hnd).1)]
        simp
      · rw [ih a (List.nodup_cons.mp hnd).2 hmem]
        have hba : ¬ b == a := by
          intro hb
          have hbeq : b = a := eq_of_beq hb
          subst hbeq
          exact (List.nodup_cons.mp hnd).1 hmem
        simp [hba]

lemma detect_eq_fold (s : DBState) (I : Nat)
    (hne : ¬ (read_file_hashes_for_image I s).isEmpty)
    (hall : ¬ (read_files_with_hash s).isEmpty) :
    detect_duplicates s I false =
      (hash_groups_of (read_file_hashes_for_image I s)).foldl (reconcile_hash I) s := by
  show (if (read_file_hashes_for_image I s).isEmpty ∨ (read_files_with_hash s).isEmpty then s
    else if ¬ (false : Bool) then
      (hash_groups_of (read_file_hashes_for_image I s)).foldl (reconcile_hash I) s
    else s) =
    (hash_groups_of (read_file_hashes_for_image I s)).foldl (reconcile_hash I) s
  rw [if_neg (not_or.mpr ⟨hne, hall⟩), if_pos (by decide)]

lemma image_hashes_nonempty_of_filter (s : DBState) (I : Nat) (h : String)
    (hfne : ((read_file_hashes_for_image I s).filter
      (fun e => e.file_hash == h)) ≠ []) :
    ¬ (read_file_hashes_for_image I s).isEmpty := by
  intro hcontra
  rw [List.isEmpty_iff] at hcontra
  rw [hcontra] at hfne
  simp at hfne

lemma all_hashes_nonempty (s : DBState)
    (hcons : ∀ e ∈ s.fileHashes, ∃ f ∈ s.files,
      f.id = e.file_id ∧ f.file_hash = some e.file_hash ∧ f.image_id = e.image_id)
    (e : FileHashEntry) (he : e ∈ s.fileHashes) :
    ¬ (read_files_with_hash s).isEmpty := by
  obtain ⟨f, hf, -, hfh, -⟩ := hcons e he
  have hmem : (f.id, e.file_hash) ∈ read_files_with_hash s := by
    unfold read_files_with_hash
    exact List.mem_filterMap.mpr ⟨f, hf, by rw [hfh]; rfl⟩
  intro hcontra
  rw [List.isEmpty_iff] at hcontra
  rw [hcontra] at hmem
  simp at hmem

lemma shared_hash_group (s : DBState) (I : Nat) (h : String)
    (hfne : ((read_file_hashes_for_image I s).filter
      (fun e => e.file_hash == h)) ≠ []) :
    ∃ fids, (h, fids) ∈ hash_groups_of (read_file_hashes_for_image I s) ∧
      fids = ((read_file_hashes_for_image I s).filter
        (fun e => e.file_hash == h)).map FileHashEntry.file_id := by
  obtain ⟨hnd, hval, hcov, hwit⟩ := hash_groups_spec (read_file_hashes_for_image I s)
  obtain ⟨e, hef⟩ := List.exists_mem_of_ne_nil _ hfne
  obtain ⟨hee, heh⟩ := List.mem_filter.mp hef
  have heh : e.file_hash = h := by simpa using heh
  have hkey : e.file_hash ∈ (hash_groups_of (read_file_hashes_for_image I s)).map Prod.fst :=
    hcov e hee
  rcases List.mem_map.mp hkey with ⟨p, hp, hps⟩
  have hph : p.1 = h := by rw [hps, heh]
  refine ⟨p.2, ?_, ?_⟩
  · have hpeq : (h, p.2) = p := by rw [← hph]
    rw [hpeq]
    exact hp
  · have := hval p hp
    rw [hph] at this
    exact this

lemma hash_groups_keys_nonempty (s : DBState) (I : Nat)
    (w4 : ∀ e ∈ s.fileHashes, e.file_hash ≠ "") :
    ∀ hg ∈ hash_groups_of (read_file_hashes_for_image I s), hg.1 ≠ "" := by
  intro hg hgmem
  obtain ⟨e, he, heh⟩ :=
    (hash_groups_spec (read_file_hashes_for_image I s)).2.2.2 hg hgmem
  rw [← heh]
  exact w4 e (List.mem_filter.mp he).1

lemma detect_counts (s : DBState) (I : Nat) (h : String)
    (hWF : WF s) (hI : I ∈ s.images) (hIpos : 0 < I)
    (hshared : 2 ≤ ((read_file_hashes_for_image I s).filter
      (fun e => e.file_hash == h)).length) :
    (detect_duplicates s I false).groups.count h = 1 ∧
    (detect_duplicates s I false).links.count (h, I) = 1 ∧
    ∀ e ∈ (read_file_hashes_for_image I s).filter (fun e => e.file_hash == h),
      ((detect_duplicates s I false).members.map Prod.snd).count e.file_id = 1 := by
  obtain ⟨w1, w2, w3, w4, w5⟩ := hWF
  have hfne : ((read_file_hashes_for_image I s).filter
      (fun e => e.file_hash == h)) ≠ [] := by
    intro hc
    rw [hc] at hshared
    simp at hshared
  obtain ⟨e0, he0⟩ := List.exists_mem_of_ne_nil _ hfne
  have hne1 := image_hashes_nonempty_of_filter s I h hfne
  have hne2 := all_hashes_nonempty s w5 e0
    (List.mem_filter.mp ((List.mem_filter.mp he0).1)).1
  rw [detect_eq_fold s I hne1 hne2]
  obtain ⟨fids, hmem, hfids⟩ := shared_hash_group s I h hfne
  have hlen : 2 ≤ fids.length := by
    rw [hfids, List.length_map]
    exact hshared
  have hest := detect_fold_establishes I
    (hash_groups_of (read_file_hashes_for_image I s)) s hIpos hI
    (hash_groups_keys_nonempty s I w4) (h, fids) hmem hlen
  have hWFF := detect_fold_WF I
    (hash_groups_of (read_file_hashes_for_image I s)) s ⟨w1, w2, w3, w4, w5⟩
  obtain ⟨hgrp, hlnk, hmembers⟩ := hest
  refine ⟨count_one_of_nodup_mem _ _ hWFF.1 hgrp,
    count_one_of_nodup_mem _ _ hWFF.2.1 hlnk, ?_⟩
  intro e hef
  have hfid : e.file_id ∈ fids := by
    rw [hfids]
    exact List.mem_map.mpr ⟨e, hef, rfl⟩
  exact count_one_of_nodup_mem _ _ hWFF.2.2.1 (hmembers e.file_id hfid)

lemma detect_idem (s : DBState) (I : Nat)
    (hWF : WF s) (hI : I ∈ s.images) (hIpos : 0 < I) :
    detect_duplicates (detect_duplicates s I false) I false =
      detect_duplicates s I false := by
  obtain ⟨w1, w2, w3, w4, w5⟩ := hWF
  by_cases hne : (read_file_hashes_for_image I s).isEmpty ∨ (read_files_with_hash s).isEmpty
  · have h1 : detect_duplicates s I false = s := by
      show (if (read_file_hashes_for_image I s).isEmpty ∨ (read_files_with_hash s).isEmpty
        then s
        else if ¬ (false : Bool) then
          (hash_groups_of (read_file_hashes_for_image I s)).foldl (reconcile_hash I) s
        else s) = s
      rw [if_pos hne]
    rw [h1]
    exact h1
  · obtain ⟨hne1, hne2⟩ := not_or.mp hne
    have hfold := detect_eq_fold s I hne1 hne2
    obtain ⟨ff, fh, fi⟩ := detect_fold_frame I
      (hash_groups_of (read_file_hashes_for_image I s)) s
    have hentries1 : read_file_hashes_for_image I
        ((hash_groups_of (read_file_hashes_for_image I s)).foldl (reconcile_hash I) s) =
        read_file_hashes_for_image I s :=
      congrArg (fun l => l.filter (fun e => e.image_id == I)) fh
    have hallh1 : read_files_with_hash
        ((hash_groups_of (read_file_hashes_for_image I s)).foldl (reconcile_hash I) s) =
        read_files_with_hash s :=
      congrArg (fun l => l.filterMap (fun f => f.file_hash.map (fun h => (f.id, h)))) ff
    rw [hfold]
    have h2 : detect_duplicates
        ((hash_groups_of (read_file_hashes_for_image I s)).foldl (reconcile_hash I) s)
        I false =
        (hash_groups_of (read_file_hashes_for_image I s)).foldl (reconcile_hash I)
          ((hash_groups_of (read_file_hashes_for_image I s)).foldl (reconcile_hash I) s) := by
      rw [detect_eq_fold _ I (by rw [hentries1]; exact hne1)
        (by rw [hallh1]; exact hne2), hentries1]
    rw [h2]
    exact detect_fold_noop I (hash_groups_of (read_file_hashes_for_image I s)) _
      (fun hg hgmem hlen =>
        detect_fold_establishes I (hash_groups_of (read_file_hashes_for_image I s)) s
          hIpos hI (hash_groups_keys_nonempty s I w4) hg hgmem hlen)

/-! ### Lemmas about `extract_exiftool_data` -/

lemma chunkBatches_single (l : List FPath) (hne : l ≠ [])
    (hlen : l.length ≤ batch_size) : chunkBatches l = [l] := by
  cases l with
  | nil => exact absurd rfl hne
  | cons a rest =>
      rw [chunkBatches]
      rw [List.take_of_length_le hlen, List.drop_eq_nil_of_le hlen]
      rw [chunkBatches]

lemma dictSet_fresh {α : Type} (d : PyDict α) (k : String) (v : α)
    (hfresh : k ∉ d.map Prod.fst) : dictSet d k v = d ++ [(k, v)] := by
  unfold dictSet
  rw [if_neg ?_]
  intro hc
  rcases List.any_eq_true.mp hc with ⟨p, hp, hbeq⟩
  exact hfresh (List.mem_map.mpr ⟨p, hp, by simpa using hbeq⟩)

lemma setAdd_fresh (s : List String) (x : String) (hx : x ∉ s) :
    setAdd s x = s ++ [x] := by
  unfold setAdd
  rw [if_neg (fun hc => hx (List.elem_iff.mp hc))]

lemma singleEntryOk_spec (env : ProbeEnv) (p : FPath)
    (hok : singleEntryOk env p = true) :
    ∃ m, env.singleCall p = some [m] ∧
      dictGet m "File:FileName" = some (MVal.str p.name) := by
  unfold singleEntryOk at hok
  split at hok
  next m heq => exact ⟨m, heq, of_decide_eq_true hok⟩
  next => exact absurd hok (by simp)

lemma metaName_of_key (m : Meta) (nm : String)
    (h : dictGet m "File:FileName" = some (MVal.str nm)) : metaName m = nm := by
  unfold metaName
  rw [h]

lemma dictGet_map_of_nodup (f : FPath → Meta) :
    ∀ (l : List FPath), (l.map FPath.name).Nodup → ∀ q ∈ l,
      dictGet (l.map (fun p => (p.name, f p))) q.name = some (f q) := by
  intro l
  induction l with
  | nil => intro _ q hq; simp at hq
  | cons p rest ih =>
      intro hnd q hq
      simp only [List.map_cons, List.nodup_cons] at hnd
      rcases List.mem_cons.mp hq with rfl | hq
      · unfold dictGet
        simp [List.find?]
      · have hne : ¬ p.name == q.name := by
          simp only [beq_iff_eq]
          intro hcontra
          apply hnd.1
          rw [hcontra]
          exact List.mem_map.mpr ⟨q, hq, rfl⟩
        unfold dictGet
        simp only [List.map_cons, List.find?]
        rw [show ((p.name, f p).1 == q.name) = false by simpa using hne]
        exact ih hnd.2 q hq

lemma filter_eq_singleton {α : Type} (p : α → Bool) :
    ∀ (l : List α) (a : α), a ∈ l → l.Nodup → p a = true →
      (∀ x ∈ l, x ≠ a → p x = false) → l.filter p = [a] := by
  intro l
  induction l with
  | nil => intro a hmem; simp at hmem
  | cons b rest ih =>
      intro a hmem hnd hpa hother
      rcases List.mem_cons.mp hmem with rfl | hmem
      · rw [List.filter_cons_of_pos hpa]
        rw [show rest.filter p = [] by
          rw [List.filter_eq_nil_iff]
          intro x hx
          have hxa : x ≠ a := by
            intro hcontra
            subst hcontra
            exact (List.nodup_cons.mp hnd).1 hx
          simp [hother x (List.mem_cons_of_mem _ hx) hxa]]
      · have hba : b ≠ a := by
          intro hcontra
          subst hcontra
          exact (List.nodup_cons.mp hnd).1 hmem
        rw [List.filter_cons_of_neg (by simp [hother b (List.mem_cons_self _ _) hba])]
        exact ih a hmem (List.nodup_cons.mp hnd).2 hpa
          (fun x hx => hother x (List.mem_cons_of_mem _ hx))

lemma processIndividual_spec (env : ProbeEnv) :
    ∀ (l : List FPath) (d : PyDict Meta) (ip : List String),
      (∀ p ∈ l, env.singleCall p = none ∨ singleEntryOk env p = true) →
      (∀ p ∈ l, p.name ∉ d.map Prod.fst) →
      (l.map FPath.name).Nodup →
      (∀ p ∈ l, p.name ∉ ip) →
      l.foldl (fun a p =>
        match env.singleCall p with
        | some metas =>
            (metas.foldl (fun d2 file => dictSet d2 (metaName file) file) a.1, a.2)
        | none =>
            (dictSet a.1 p.name (fallbackDict env p), setAdd a.2 p.name)) (d, ip)
      = (d ++ l.map (fun p => (p.name, expectedEntry env p)),
         ip ++ (l.filter (fun p => (env.singleCall p).isNone)).map FPath.name) := by
  intro l
  induction l with
  | nil => intro d ip _ _ _ _; simp
  | cons p rest ih =>
      intro d ip hok hfresh hnd hip
      simp only [List.foldl_cons]
      have hndr := (by simpa using hnd :
        p.name ∉ rest.map FPath.name ∧ (rest.map FPath.name).Nodup)
      rcases hok p (List.mem_cons_self _ _) with hnone | hsingle
      · -- individual probe fails: fallback entry, name recorded
        rw [hnone]
        have hstep : (dictSet d p.name (fallbackDict env p), setAdd ip p.name)
            = (d ++ [(p.name, fallbackDict env p)], ip ++ [p.name]) := by
          rw [dictSet_fresh d p.name _ (hfresh p (List.mem_cons_self _ _)),
            setAdd_fresh ip p.name (hip p (List.mem_cons_self _ _))]
        rw [hstep]
        rw [ih (d ++ [(p.name, fallbackDict env p)]) (ip ++ [p.name])
          (fun q hq => hok q (List.mem_cons_of_mem _ hq))
          (fun q hq => by
            simp only [List.map_append, List.mem_append, List.map_cons, List.map_nil,
              List.mem_singleton, not_or]
            refine ⟨hfresh q (List.mem_cons_of_mem _ hq), fun hcontra => hndr.1 ?_⟩
            rw [← hcontra]
            exact List.mem_map.mpr ⟨q, hq, rfl⟩)
          hndr.2
          (fun q hq => by
            simp only [List.mem_append, List.mem_singleton, not_or]
            refine ⟨hip q (List.mem_cons_of_mem _ hq), fun hcontra => hndr.1 ?_⟩
            rw [← hcontra]
            exact List.mem_map.mpr ⟨q, hq, rfl⟩)]
        have hexp : expectedEntry env p = fallbackDict env p := by
          unfold expectedEntry
          rw [hnone]
        have hfilt : (p :: rest).filter (fun q => (env.singleCall q).isNone)
            = p :: rest.filter (fun q => (env.singleCall q).isNone) :=
          List.filter_cons_of_pos (by rw [hnone]; rfl)
        rw [hfilt]
        simp [hexp]
      · -- individual probe succeeds with one correctly keyed record
        obtain ⟨m, heq, hname⟩ := singleEntryOk_spec env p hsingle
        rw [heq]
        dsimp only
        have hstep : ([m].foldl (fun d2 file => dictSet d2 (metaName file) file) d, ip)
            = (d ++ [(p.name, m)], ip) := by
          simp only [List.foldl_cons, List.foldl_nil]
          rw [metaName_of_key m p.name hname,
            dictSet_fresh d p.name m (hfresh p (List.mem_cons_self _ _))]
        rw [hstep]
        rw [ih (d ++ [(p.name, m)]) ip
          (fun q hq => hok q (List.mem_cons_of_mem _ hq))
          (fun q hq => by
            simp only [List.map_append, List.mem_append, List.map_cons, List.map_nil,
              List.mem_singleton, not_or]
            refine ⟨hfresh q (List.mem_cons_of_mem _ hq), fun hcontra => hndr.1 ?_⟩
            rw [← hcontra]
            exact List.mem_map.mpr ⟨q, hq, rfl⟩)
          hndr.2
          (fun q hq => hip q (List.mem_cons_of_mem _ hq))]
        have hexp : expectedEntry env p = m := by
          unfold expectedEntry
          rw [heq]
        have hfilt : (p :: rest).filter (fun q => (env.singleCall q).isNone)
            = rest.filter (fun q => (env.singleCall q).isNone) :=
          List.filter_cons_of_neg (by rw [heq]; simp)
        rw [hfilt]
        simp [hexp]

lemma extract_single_batch (env : ProbeEnv) (files : List FPath)
    (hne : files ≠ []) (hlen : files.length ≤ batch_size)
    (hbatch : env.batchCall files = none)
    (hok : ∀ p ∈ files, env.singleCall p = none ∨ singleEntryOk env p = true)
    (hnd : (files.map FPath.name).Nodup) :
    extract_exiftool_data env files []
      = (files.map (fun p => (p.name, expectedEntry env p)),
         (files.filter (fun p => (env.singleCall p).isNone)).map FPath.name) := by
  unfold extract_exiftool_data
  rw [chunkBatches_single files hne hlen]
  simp only [List.foldl_cons, List.foldl_nil]
  unfold processBatch
  rw [hbatch]
  rw [processIndividual_spec env files [] [] hok (by simp) hnd (by simp)]
  simp

/-! ## Claims -/

/-- C9: the streaming SHA-256 computation in `hash_and_store` feeds the
digest the same byte sequence — the file's whole content — for every
positive chunk size, so a 1-byte buffer and the code's 4096-byte `buffer`
produce an identical digest, and a 0-byte file feeds the digest the empty
input. -/
theorem hash_and_store_chunk_invariant (content : List Nat) (b1 b2 : Nat)
    (h1 : 0 < b1) (h2 : 0 < b2) :
    hashStreamInput b1 content = hashStreamInput b2 content ∧
    hashStreamInput b1 content = content ∧
    hashStreamInput hash_buffer [] = [] := by
  refine ⟨?_, hashStreamInput_eq_content b1 h1 content, ?_⟩
  · rw [hashStreamInput_eq_content b1 h1 content,
      hashStreamInput_eq_content b2 h2 content]
  · exact hashStreamInput_eq_content hash_buffer (by decide) []

/-- Witness for C9 at chunk sizes 1 and 4096 on the content `[0, 255, 10]`. -/
theorem hash_and_store_chunk_invariant_witness :
    (0 : Nat) < 1 ∧ (0 : Nat) < hash_buffer ∧
    (hashStreamInput 1 [0, 255, 10] = hashStreamInput hash_buffer [0, 255, 10] ∧
     hashStreamInput 1 [0, 255, 10] = [0, 255, 10] ∧
     hashStreamInput hash_buffer [] = []) :=
  ⟨by decide, by decide,
    hash_and_store_chunk_invariant [0, 255, 10] 1 hash_buffer (by decide) (by decide)⟩

/-- C3: whenever `parse_audit` succeeds (`image_id > 0`, non-`None` audit
table), the statement `parsed, audit_table = parse_files(...)` in `main`
raises a `TypeError` for both possible boolean results of `parse_files`,
so `main` reaches neither the duplicate-detection/report branch nor the
cleanup branch and instead aborts via the generic exception handler. -/
theorem main_unpack_always_type_errors (image_id : Int)
    (audit_table : Option (PyDict AuditEntry)) (parse_ok : Bool)
    (hid : 0 < image_id) (haud : audit_table ≠ none) :
    main_after_audit image_id audit_table parse_ok =
      MainOutcome.abortGeneric "TypeError: cannot unpack non-iterable bool object" ∧
    main_after_audit image_id audit_table parse_ok ≠ MainOutcome.reportGenerated ∧
    main_after_audit image_id audit_table parse_ok ≠ MainOutcome.cleanupAbort := by
  have hmain : main_after_audit image_id audit_table parse_ok =
      MainOutcome.abortGeneric "TypeError: cannot unpack non-iterable bool object" := by
    unfold main_after_audit
    rw [if_pos ⟨hid, haud⟩]
    rfl
  refine ⟨hmain, ?_, ?_⟩ <;> rw [hmain] <;> intro hcontra <;> exact
    MainOutcome.noConfusion hcontra

/-- Witness for C3 at `image_id = 1`, an empty audit table, and a
successful parse. -/
theorem main_unpack_always_type_errors_witness :
    (0 : Int) < 1 ∧ (some ([] : PyDict AuditEntry) ≠ none) ∧
    (main_after_audit 1 (some ([] : PyDict AuditEntry)) true =
      MainOutcome.abortGeneric "TypeError: cannot unpack non-iterable bool object" ∧
    main_after_audit 1 (some ([] : PyDict AuditEntry)) true ≠ MainOutcome.reportGenerated ∧
    main_after_audit 1 (some ([] : PyDict AuditEntry)) true ≠ MainOutcome.cleanupAbort) :=
  ⟨by decide, by simp,
    main_unpack_always_type_errors 1 (some []) true (by decide) (by simp)⟩

/-- C8: at the failing input — audit parse succeeded (`image_id = 1`,
empty audit table) and `parse_files` reports failure — `main` aborts
through the generic handler and never executes the cleanup branch, so no
partial-state cleanup happens. -/
theorem main_parse_failure_skips_cleanup :
    main_after_audit 1 (some ([] : PyDict AuditEntry)) false =
      MainOutcome.abortGeneric "TypeError: cannot unpack non-iterable bool object" ∧
    main_after_audit 1 (some ([] : PyDict AuditEntry)) false ≠
      MainOutcome.cleanupAbort := by
  constructor
  · rfl
  · intro hcontra; exact MainOutcome.noConfusion hcontra

/-- C5 (amended): with `cross_image = True` the detection body is a
commented-out `TODO`, so `detect_duplicates` leaves the durable state
unchanged for every state and image. -/
theorem detect_duplicates_cross_image_stub (s : DBState) (image_id : Nat) :
    detect_duplicates s image_id true = s := by
  unfold detect_duplicates
  simp

/-- C5 counterexample: files 1 (image 1) and 2 (image 2) share hash `"h"`;
invoking `detect_duplicates` on image 2 with `cross_image = true` creates
no group and no link at all, contrary to the claim that the shared hash
produces a group linking both images. -/
theorem detect_duplicates_cross_image_counterexample :
    (detect_duplicates
      ⟨[⟨1, some "h", 1⟩, ⟨2, some "h", 2⟩], [⟨1, "h", 1⟩, ⟨2, "h", 2⟩],
       [1, 2], [], [], []⟩ 2 true).groups = [] ∧
    (detect_duplicates
      ⟨[⟨1, some "h", 1⟩, ⟨2, some "h", 2⟩], [⟨1, "h", 1⟩, ⟨2, "h", 2⟩],
       [1, 2], [], [], []⟩ 2 true).links = [] := by
  decide

/-- C6 (amended): `create_database_objects` only reads the audit
side-table via `audit_table.get(...)` and never removes entries, so after
processing any set of metadata entries the side-table is unchanged — its
remainder is the full original table, not just the audit-listed files
never found on disk. -/
theorem create_database_objects_preserves_audit_table (subdir_files : PyDict Meta)
    (image_id : Nat) (audit_table : PyDict AuditEntry) (is_python : List String) :
    (create_database_objects subdir_files image_id audit_table is_python).2 =
      audit_table := by
  unfold create_database_objects
  exact create_objects_foldl_snd subdir_files image_id is_python ([], audit_table)

/-- C6 counterexample: processing the metadata entry for `"a.jpg"`, which
has a matching audit entry, leaves that audit entry in the side-table,
contrary to the claim that the matching entry is removed. -/
theorem create_database_objects_audit_counterexample :
    (create_database_objects [("a.jpg", [("File:FileName", MVal.str "a.jpg")])]
      1 [("a.jpg", [("File Offset", MVal.nat 0)])] []).2 =
      [("a.jpg", [("File Offset", MVal.nat 0)])] ∧
    dictGet (create_database_objects
      [("a.jpg", [("File:FileName", MVal.str "a.jpg")])]
      1 [("a.jpg", [("File Offset", MVal.nat 0)])] []).2 "a.jpg" ≠ none := by
  decide

/-- C7 (amended): `create_database_objects` never computes the
extension-mismatch flag: on every built record the
`file_extension_mismatch` attribute is left unassigned (so the column
default `False` applies at insert), regardless of whether the filename
suffix and the probe-reported extension agree. -/
theorem create_database_objects_never_sets_mismatch (subdir_files : PyDict Meta)
    (image_id : Nat) (audit_table : PyDict AuditEntry) (is_python : List String) :
    ∀ f ∈ (create_database_objects subdir_files image_id audit_table is_python).1,
      f.file_extension_mismatch = none := by
  unfold create_database_objects
  exact create_objects_foldl_mismatch subdir_files image_id is_python
    ([], audit_table) (by intro f hf; simp at hf)

/-- Witness for C7 (amended): the record built for `"a.jpg"` is in the
output and its mismatch attribute is unassigned. -/
theorem create_database_objects_never_sets_mismatch_witness :
    buildFileObj 1 [] [] ("a.jpg", []) ∈
      (create_database_objects [("a.jpg", [])] 1 [] []).1 ∧
    (buildFileObj 1 [] [] ("a.jpg", [])).file_extension_mismatch = none :=
  ⟨by decide,
    create_database_objects_never_sets_mismatch [("a.jpg", [])] 1 [] []
      (buildFileObj 1 [] [] ("a.jpg", [])) (by decide)⟩

/-- C7 counterexample: for filename `"a.jpg"` with probe-reported extension
`"PNG"` the alias-normalized suffix and extension differ, so the claim
requires the flag to be `true`; the built record instead leaves the flag
unassigned (column default `False`). -/
theorem extension_mismatch_counterexample :
    specMismatch "a.jpg" "PNG" = true ∧
    (create_database_objects
      [("a.jpg", [("File:FileTypeExtension", MVal.str "PNG")])] 1 [] []).1.map
      FileObj.file_extension_mismatch = [none] := by
  constructor
  · decide
  · decide

/-- C1: for every hash with at least 2 file ids in one image, running
`detect_duplicates` (with `cross_image = false`) a second time on the same
state leaves the durable state unchanged — still exactly one
`DuplicateGroup` row for the hash, exactly one group-image link, and
exactly one `DuplicateMember` row per file id; the second run creates no
additional rows. -/
theorem detect_duplicates_idempotent (s : DBState) (I : Nat) (h : String)
    (hWF : WF s) (hI : I ∈ s.images) (hIpos : 0 < I)
    (hshared : 2 ≤ ((read_file_hashes_for_image I s).filter
      (fun e => e.file_hash == h)).length) :
    detect_duplicates (detect_duplicates s I false) I false =
      detect_duplicates s I false ∧
    (detect_duplicates (detect_duplicates s I false) I false).groups.count h = 1 ∧
    (detect_duplicates (detect_duplicates s I false) I false).links.count (h, I) = 1 ∧
    ∀ e ∈ (read_file_hashes_for_image I s).filter (fun e => e.file_hash == h),
      ((detect_duplicates (detect_duplicates s I false) I false).members.map
        Prod.snd).count e.file_id = 1 := by
  have hidem := detect_idem s I hWF hI hIpos
  have hcounts := detect_counts s I h hWF hI hIpos hshared
  rw [hidem]
  exact ⟨rfl, hcounts⟩

/-- Witness for C1: image 1 has files 1 and 2 sharing hash `"h"`; the
reconciliation is run twice from the empty duplicate state. -/
theorem detect_duplicates_idempotent_witness :
    (WF ⟨[⟨1, some "h", 1⟩, ⟨2, some "h", 1⟩], [⟨1, "h", 1⟩, ⟨2, "h", 1⟩],
        [1], [], [], []⟩ ∧
     1 ∈ (⟨[⟨1, some "h", 1⟩, ⟨2, some "h", 1⟩], [⟨1, "h", 1⟩, ⟨2, "h", 1⟩],
        [1], [], [], []⟩ : DBState).images ∧ 0 < 1 ∧
     2 ≤ ((read_file_hashes_for_image 1
        ⟨[⟨1, some "h", 1⟩, ⟨2, some "h", 1⟩], [⟨1, "h", 1⟩, ⟨2, "h", 1⟩],
        [1], [], [], []⟩).filter (fun e => e.file_hash == "h")).length) ∧
    (detect_duplicates (detect_duplicates
        ⟨[⟨1, some "h", 1⟩, ⟨2, some "h", 1⟩], [⟨1, "h", 1⟩, ⟨2, "h", 1⟩],
        [1], [], [], []⟩ 1 false) 1 false =
      detect_duplicates
        ⟨[⟨1, some "h", 1⟩, ⟨2, some "h", 1⟩], [⟨1, "h", 1⟩, ⟨2, "h", 1⟩],
        [1], [], [], []⟩ 1 false ∧
     (detect_duplicates (detect_duplicates
        ⟨[⟨1, some "h", 1⟩, ⟨2, some "h", 1⟩], [⟨1, "h", 1⟩, ⟨2, "h", 1⟩],
        [1], [], [], []⟩ 1 false) 1 false).groups.count "h" = 1 ∧
     (detect_duplicates (detect_duplicates
        ⟨[⟨1, some "h", 1⟩, ⟨2, some "h", 1⟩], [⟨1, "h", 1⟩, ⟨2, "h", 1⟩],
        [1], [], [], []⟩ 1 false) 1 false).links.count ("h", 1) = 1 ∧
     ∀ e ∈ (read_file_hashes_for_image 1
        ⟨[⟨1, some "h", 1⟩, ⟨2, some "h", 1⟩], [⟨1, "h", 1⟩, ⟨2, "h", 1⟩],
        [1], [], [], []⟩).filter (fun e => e.file_hash == "h"),
      ((detect_duplicates (detect_duplicates
        ⟨[⟨1, some "h", 1⟩, ⟨2, some "h", 1⟩], [⟨1, "h", 1⟩, ⟨2, "h", 1⟩],
        [1], [], [], []⟩ 1 false) 1 false).members.map
        Prod.snd).count e.file_id = 1) :=
  ⟨⟨by decide, by decide, by decide, by decide⟩,
    detect_duplicates_idempotent
      ⟨[⟨1, some "h", 1⟩, ⟨2, some "h", 1⟩], [⟨1, "h", 1⟩, ⟨2, "h", 1⟩],
        [1], [], [], []⟩ 1 "h" (by decide) (by decide) (by decide) (by decide)⟩

/-- C2 (amended): after `detect_duplicates` on image `I`
(`cross_image = false`), for every hash shared by at least 2 files *of
image `I`*: exactly one `DuplicateGroup` exists for that hash, image `I`
has exactly one link to it, and each of the image's files with that hash
has exactly one membership row.  (The system-wide reading fails: cross-image
grouping is a stub, see the counterexample.) -/
theorem detect_duplicates_image_invariant (s : DBState) (I : Nat) (h : String)
    (hWF : WF s) (hI : I ∈ s.images) (hIpos : 0 < I)
    (hshared : 2 ≤ ((read_file_hashes_for_image I s).filter
      (fun e => e.file_hash == h)).length) :
    (detect_duplicates s I false).groups.count h = 1 ∧
    (detect_duplicates s I false).links.count (h, I) = 1 ∧
    ∀ e ∈ (read_file_hashes_for_image I s).filter (fun e => e.file_hash == h),
      ((detect_duplicates s I false).members.map Prod.snd).count e.file_id = 1 :=
  detect_counts s I h hWF hI hIpos hshared

/-- Witness for C2 (amended): image 1 has files 4 and 5 sharing hash `"k"`
plus file 6 with singleton hash `"z"`. -/
theorem detect_duplicates_image_invariant_witness :
    (WF ⟨[⟨4, some "k", 1⟩, ⟨5, some "k", 1⟩, ⟨6, some "z", 1⟩],
        [⟨4, "k", 1⟩, ⟨5, "k", 1⟩, ⟨6, "z", 1⟩], [1], [], [], []⟩ ∧
     1 ∈ (⟨[⟨4, some "k", 1⟩, ⟨5, some "k", 1⟩, ⟨6, some "z", 1⟩],
        [⟨4, "k", 1⟩, ⟨5, "k", 1⟩, ⟨6, "z", 1⟩], [1], [], [], []⟩ : DBState).images ∧
     0 < 1 ∧
     2 ≤ ((read_file_hashes_for_image 1
        ⟨[⟨4, some "k", 1⟩, ⟨5, some "k", 1⟩, ⟨6, some "z", 1⟩],
        [⟨4, "k", 1⟩, ⟨5, "k", 1⟩, ⟨6, "z", 1⟩], [1], [], [], []⟩).filter
          (fun e => e.file_hash == "k")).length) ∧
    ((detect_duplicates ⟨[⟨4, some "k", 1⟩, ⟨5, some "k", 1⟩, ⟨6, some "z", 1⟩],
        [⟨4, "k", 1⟩, ⟨5, "k", 1⟩, ⟨6, "z", 1⟩], [1], [], [], []⟩ 1 false).groups.count
      "k" = 1 ∧
     (detect_duplicates ⟨[⟨4, some "k", 1⟩, ⟨5, some "k", 1⟩, ⟨6, some "z", 1⟩],
        [⟨4, "k", 1⟩, ⟨5, "k", 1⟩, ⟨6, "z", 1⟩], [1], [], [], []⟩ 1 false).links.count
      ("k", 1) = 1 ∧
     ∀ e ∈ (read_file_hashes_for_image 1
        ⟨[⟨4, some "k", 1⟩, ⟨5, some "k", 1⟩, ⟨6, some "z", 1⟩],
        [⟨4, "k", 1⟩, ⟨5, "k", 1⟩, ⟨6, "z", 1⟩], [1], [], [], []⟩).filter
          (fun e => e.file_hash == "k"),
      ((detect_duplicates ⟨[⟨4, some "k", 1⟩, ⟨5, some "k", 1⟩, ⟨6, some "z", 1⟩],
        [⟨4, "k", 1⟩, ⟨5, "k", 1⟩, ⟨6, "z", 1⟩], [1], [], [], []⟩ 1 false).members.map
        Prod.snd).count e.file_id = 1) :=
  ⟨⟨by decide, by decide, by decide, by decide⟩,
    detect_duplicates_image_invariant
      ⟨[⟨4, some "k", 1⟩, ⟨5, some "k", 1⟩, ⟨6, some "z", 1⟩],
        [⟨4, "k", 1⟩, ⟨5, "k", 1⟩, ⟨6, "z", 1⟩], [1], [], [], []⟩ 1 "k"
      (by decide) (by decide) (by decide) (by decide)⟩

/-- C2 counterexample: files 1 (image 1) and 2 (image 2) share hash `"h"`
system-wide; after reconciliation of image 2 the hash is still shared by 2
files but no `DuplicateGroup` for it exists, refuting the system-wide
reading (cross-image grouping is an unimplemented stub). -/
theorem detect_duplicates_systemwide_counterexample :
    2 ≤ ((read_files_with_hash (detect_duplicates
        ⟨[⟨1, some "h", 1⟩, ⟨2, some "h", 2⟩], [⟨1, "h", 1⟩, ⟨2, "h", 2⟩],
         [1, 2], [], [], []⟩ 2 false)).filter (fun p => p.2 == "h")).length ∧
    (detect_duplicates
        ⟨[⟨1, some "h", 1⟩, ⟨2, some "h", 2⟩], [⟨1, "h", 1⟩, ⟨2, "h", 2⟩],
         [1, 2], [], [], []⟩ 2 false).groups.count "h" = 0 := by
  decide

/-- C10: a hash associated with exactly one file id of the image never
produces a `DuplicateGroup`, a group-image link, or a `DuplicateMember`
row: after `detect_duplicates` the group count for that hash, the link
count for (hash, image) and the membership rows of that hash's group are
exactly as before. -/
theorem detect_duplicates_singleton_noop (s : DBState) (I : Nat) (h : String)
    (hsingle : ((read_file_hashes_for_image I s).filter
      (fun e => e.file_hash == h)).length = 1) :
    (detect_duplicates s I false).groups.count h = s.groups.count h ∧
    (detect_duplicates s I false).links.count (h, I) = s.links.count (h, I) ∧
    (detect_duplicates s I false).members.filter (fun m => m.1 == h) =
      s.members.filter (fun m => m.1 == h) := by
  by_cases hne : (read_file_hashes_for_image I s).isEmpty ∨ (read_files_with_hash s).isEmpty
  · have h1 : detect_duplicates s I false = s := by
      show (if (read_file_hashes_for_image I s).isEmpty ∨ (read_files_with_hash s).isEmpty
        then s
        else if ¬ (false : Bool) then
          (hash_groups_of (read_file_hashes_for_image I s)).foldl (reconcile_hash I) s
        else s) = s
      rw [if_pos hne]
    rw [h1]
    exact ⟨rfl, rfl, rfl⟩
  · obtain ⟨hne1, hne2⟩ := not_or.mp hne
    rw [detect_eq_fold s I hne1 hne2]
    refine detect_fold_other_hash I _ h s ?_
    intro hg hgmem
    by_cases hgh : hg.1 = h
    · right
      have hval := (hash_groups_spec (read_file_hashes_for_image I s)).2.1 hg hgmem
      rw [hgh] at hval
      have hlen1 : hg.2.length = 1 := by
        rw [hval, List.length_map, hsingle]
      omega
    · exact Or.inl hgh

/-- Witness for C10: image 1 has a singleton hash `"h"` (file 1) next to a
duplicated hash `"k"` (files 2 and 3); nothing is created for `"h"`. -/
theorem detect_duplicates_singleton_noop_witness :
    ((read_file_hashes_for_image 1
        ⟨[⟨1, some "h", 1⟩, ⟨2, some "k", 1⟩, ⟨3, some "k", 1⟩],
         [⟨1, "h", 1⟩, ⟨2, "k", 1⟩, ⟨3, "k", 1⟩], [1], [], [], []⟩).filter
      (fun e => e.file_hash == "h")).length = 1 ∧
    ((detect_duplicates ⟨[⟨1, some "h", 1⟩, ⟨2, some "k", 1⟩, ⟨3, some "k", 1⟩],
         [⟨1, "h", 1⟩, ⟨2, "k", 1⟩, ⟨3, "k", 1⟩], [1], [], [], []⟩ 1 false).groups.count
      "h" =
      (⟨[⟨1, some "h", 1⟩, ⟨2, some "k", 1⟩, ⟨3, some "k", 1⟩],
         [⟨1, "h", 1⟩, ⟨2, "k", 1⟩, ⟨3, "k", 1⟩], [1], [], [], []⟩ : DBState).groups.count
      "h" ∧
     (detect_duplicates ⟨[⟨1, some "h", 1⟩, ⟨2, some "k", 1⟩, ⟨3, some "k", 1⟩],
         [⟨1, "h", 1⟩, ⟨2, "k", 1⟩, ⟨3, "k", 1⟩], [1], [], [], []⟩ 1 false).links.count
      ("h", 1) =
      (⟨[⟨1, some "h", 1⟩, ⟨2, some "k", 1⟩, ⟨3, some "k", 1⟩],
         [⟨1, "h", 1⟩, ⟨2, "k", 1⟩, ⟨3, "k", 1⟩], [1], [], [], []⟩ : DBState).links.count
      ("h", 1) ∧
     (detect_duplicates ⟨[⟨1, some "h", 1⟩, ⟨2, some "k", 1⟩, ⟨3, some "k", 1⟩],
         [⟨1, "h", 1⟩, ⟨2, "k", 1⟩, ⟨3, "k", 1⟩], [1], [], [], []⟩ 1 false).members.filter
      (fun m => m.1 == "h") =
      (⟨[⟨1, some "h", 1⟩, ⟨2, some "k", 1⟩, ⟨3, some "k", 1⟩],
         [⟨1, "h", 1⟩, ⟨2, "k", 1⟩, ⟨3, "k", 1⟩], [1], [], [], []⟩ : DBState).members.filter
      (fun m => m.1 == "h")) :=
  ⟨by decide,
    detect_duplicates_singleton_noop
      ⟨[⟨1, some "h", 1⟩, ⟨2, some "k", 1⟩, ⟨3, some "k", 1⟩],
         [⟨1, "h", 1⟩, ⟨2, "k", 1⟩, ⟨3, "k", 1⟩], [1], [], [], []⟩ 1 "h" (by decide)⟩

/-- C4: for a batch where the whole-batch probe call fails and exactly one
file (`bad`) also fails the individual retry while every other file
succeeds individually (with a correctly keyed record) and the local
fallback inspection succeeds (it is total in the model),
`extract_exiftool_data` returns a metadata entry for every file name of
the batch, `fallbackUsed` contains exactly the failing file's name, and
every other file's entry is the probe-sourced record (the failing file
gets the local fallback record). -/
theorem extract_exiftool_data_isolates_bad_file (env : ProbeEnv)
    (files : List FPath) (bad : FPath)
    (hlen : files.length ≤ batch_size)
    (hbad_mem : bad ∈ files)
    (hnames : (files.map FPath.name).Nodup)
    (hbatch : env.batchCall files = none)
    (hbad : env.singleCall bad = none)
    (hgood : ∀ p ∈ files, p ≠ bad → singleEntryOk env p = true) :
    (∀ p ∈ files, ∃ m, dictGet (extract_exiftool_data env files []).1 p.name = some m) ∧
    (extract_exiftool_data env files []).2 = [bad.name] ∧
    (∀ p ∈ files, p ≠ bad →
      ∃ m, env.singleCall p = some [m] ∧
        dictGet (extract_exiftool_data env files []).1 p.name = some m) ∧
    dictGet (extract_exiftool_data env files []).1 bad.name
      = some (fallbackDict env bad) := by
  have hne : files ≠ [] := by
    intro hc
    rw [hc] at hbad_mem
    simp at hbad_mem
  have hok : ∀ p ∈ files, env.singleCall p = none ∨ singleEntryOk env p = true := by
    intro p hp
    by_cases hpb : p = bad
    · subst hpb
      exact Or.inl hbad
    · exact Or.inr (hgood p hp hpb)
  have hmain := extract_single_batch env files hne hlen hbatch hok hnames
  have hdict : ∀ q ∈ files,
      dictGet (extract_exiftool_data env files []).1 q.name
        = some (expectedEntry env q) := by
    intro q hq
    rw [hmain]
    exact dictGet_map_of_nodup (expectedEntry env) files hnames q hq
  refine ⟨fun p hp => ⟨expectedEntry env p, hdict p hp⟩, ?_, ?_, ?_⟩
  · rw [hmain]
    have hfilt : files.filter (fun p => (env.singleCall p).isNone) = [bad] :=
      filter_eq_singleton _ files bad hbad_mem (List.Nodup.of_map _ hnames)
        (by rw [hbad]; rfl)
        (fun x hx hxb => by
          obtain ⟨m, hm, -⟩ := singleEntryOk_spec env x (hgood x hx hxb)
          rw [hm]
          rfl)
    show (files.filter (fun p => (env.singleCall p).isNone)).map FPath.name = [bad.name]
    rw [hfilt]
    rfl
  · intro p hp hpb
    obtain ⟨m, hm, -⟩ := singleEntryOk_spec env p (hgood p hp hpb)
    refine ⟨m, hm, ?_⟩
    rw [hdict p hp]
    unfold expectedEntry
    rw [hm]
  · rw [hdict bad hbad_mem]
    unfold expectedEntry
    rw [hbad]

/-- Witness for C4: the batch `witnessFiles` under `witnessEnv`, where the
file named `"bad"` breaks the probe. -/
theorem extract_exiftool_data_isolates_bad_file_witness :
    (witnessFiles.length ≤ batch_size ∧
     (⟨"bad", ".bin"⟩ : FPath) ∈ witnessFiles ∧
     (witnessFiles.map FPath.name).Nodup ∧
     witnessEnv.batchCall witnessFiles = none ∧
     witnessEnv.singleCall ⟨"bad", ".bin"⟩ = none ∧
     (∀ p ∈ witnessFiles, p ≠ (⟨"bad", ".bin"⟩ : FPath) →
       singleEntryOk witnessEnv p = true)) ∧
    ((∀ p ∈ witnessFiles,
      ∃ m, dictGet (extract_exiftool_data witnessEnv witnessFiles []).1 p.name = some m) ∧
     (extract_exiftool_data witnessEnv witnessFiles []).2 = [FPath.name ⟨"bad", ".bin"⟩] ∧
     (∀ p ∈ witnessFiles, p ≠ (⟨"bad", ".bin"⟩ : FPath) →
       ∃ m, witnessEnv.singleCall p = some [m] ∧
         dictGet (extract_exiftool_data witnessEnv witnessFiles []).1 p.name = some m) ∧
     dictGet (extract_exiftool_data witnessEnv witnessFiles []).1
        (FPath.name ⟨"bad", ".bin"⟩)
       = some (fallbackDict witnessEnv ⟨"bad", ".bin"⟩)) :=
  ⟨⟨by decide, by decide, by decide, rfl, by decide, by decide⟩,
    extract_exiftool_data_isolates_bad_file witnessEnv witnessFiles ⟨"bad", ".bin"⟩
      (by decide) (by decide) (by decide) rfl (by decide) (by decide)⟩

end ForemostParser
